import Mathlib

/-!
Verification of the Lyra in-memory full-text search engine
(source: `src/types.ts`, the `Lyra` class together with its type
definitions).  The runtime data model of the JavaScript source is
embedded shallowly: JS numbers become an inductive over rationals with
the three non-finite values, JS values (strings, numbers, booleans,
nested objects) become the inductive `JVal`, and the engine state is a
record of association lists mirroring the class fields `docs`, `index`,
`numericIndex` and `booleanIndex`.  External collaborators that are not
part of the given sources (the tokenizer, the radix tree `Trie`, the
`utils` set helpers, the error constructors and the language list) are
modelled from the specification; each such definition carries a doc
comment starting with "Modelled from the spec".
-/

/-! ## Character-list utilities (the model of the JS string operations) -/

/-- Splitting a JS string on a one-character separator, as
`String.prototype.split` does: `"".split "." = [""]`,
`"a.b".split "." = ["a", "b"]`.  We work on the underlying character
list so that proofs can proceed by list induction. -/
def splitOnChar (sep : Char) : List Char → List (List Char)
  | [] => [[]]
  | c :: rest =>
    match splitOnChar sep rest with
    | [] => [[c]]
    | s :: ss => if c = sep then [] :: s :: ss else (c :: s) :: ss

/-- Prefix test on character lists (the model of a prefix match of a
search term against a stored token). -/
def listIsPfxOf : List Char → List Char → Bool
  | [], _ => true
  | _ :: _, [] => false
  | a :: as, b :: bs => a = b && listIsPfxOf as bs

/-- JS `Set.prototype.add`: append the element unless already present
(JS sets preserve insertion order and ignore duplicates). -/
def addUnique (l : List String) (x : String) : List String :=
  if x ∈ l then l else l ++ [x]

/-! ## Association lists (the model of JS `Map` objects) -/

/-- JS `Map.prototype.get` for string keys. -/
def alistGet {α : Type} (l : List (String × α)) (k : String) : Option α :=
  match l with
  | [] => none
  | (k', v) :: rest => if k' = k then some v else alistGet rest k

/-- JS `Map.prototype.set` for string keys: replace the value in place when
the key is present, append a fresh entry otherwise. -/
def alistSet {α : Type} (l : List (String × α)) (k : String) (v : α) : List (String × α) :=
  match l with
  | [] => [(k, v)]
  | (k', v') :: rest => if k' = k then (k, v) :: rest else (k', v') :: alistSet rest k v

/-- JS `Map.prototype.delete` for string keys. -/
def alistRemove {α : Type} (l : List (String × α)) (k : String) : List (String × α) :=
  match l with
  | [] => []
  | (k', v') :: rest => if k' = k then rest else (k', v') :: alistRemove rest k

/-! ## Decimal digits: the model of JS number-to-string and `Number()` -/

/-- One decimal digit as a character. -/
def digitChar (n : Nat) : Char := Char.ofNat (48 + n)

/-- The value of a decimal digit character, if it is one. -/
def charDigit (c : Char) : Option Nat :=
  if 48 ≤ c.toNat ∧ c.toNat ≤ 57 then some (c.toNat - 48) else none

/-- Decimal digits of a natural number, most significant first; the fuel
argument makes the recursion structural so that concrete evaluation
reduces inside the kernel. -/
def natDigitsAux : Nat → Nat → List Char
  | 0, _ => []
  | fuel + 1, n => if n < 10 then [digitChar n] else natDigitsAux fuel (n / 10) ++ [digitChar (n % 10)]

def natDigits (n : Nat) : List Char := natDigitsAux (n + 1) n

/-- Reading a digit string back, `none` when a non-digit appears.
An empty string reads as `0`, as `Number("")` does. -/
def digitsToNat (cs : List Char) : Option Nat :=
  cs.foldl (fun acc c =>
    match acc, charDigit c with
    | some a, some d => some (a * 10 + d)
    | _, _ => none) (some 0)

/-! ## JS numbers

JavaScript numbers are embedded as scaled decimals: `finite m e` is the
value `m / 10 ^ e` (every number the engine manipulates has a finite
decimal expansion), plus the three non-finite values.  Comparisons
follow IEEE semantics through integer cross-multiplication: every
comparison involving `nan` is false, and `nan === nan` is false, while
the `SameValueZero` equality used by `Map` keys treats `nan` as equal to
itself.  The mathematical value of `finite m e` is `ratD m e : ℚ`. -/

inductive JSNum : Type where
  | finite (m : ℤ) (e : ℕ)
  | nan
  | posInf
  | negInf
deriving DecidableEq, Repr

/-- The mathematical value of a finite JS number. -/
def ratD (m : ℤ) (e : ℕ) : ℚ := (m : ℚ) / 10 ^ e

/-- JS `<`. -/
def JSNum.jsLt : JSNum → JSNum → Bool
  | .nan, _ => false
  | _, .nan => false
  | .finite m1 e1, .finite m2 e2 => decide (m1 * 10 ^ e2 < m2 * 10 ^ e1)
  | .negInf, .negInf => false
  | .negInf, _ => true
  | _, .negInf => false
  | .posInf, _ => false
  | .finite _ _, .posInf => true

/-- JS `<=`. -/
def JSNum.jsLe : JSNum → JSNum → Bool
  | .nan, _ => false
  | _, .nan => false
  | .finite m1 e1, .finite m2 e2 => decide (m1 * 10 ^ e2 ≤ m2 * 10 ^ e1)
  | .negInf, _ => true
  | _, .negInf => false
  | _, .posInf => true
  | .posInf, .finite _ _ => false

/-- JS `===` on numbers. -/
def JSNum.jsEqq : JSNum → JSNum → Bool
  | .finite m1 e1, .finite m2 e2 => decide (m1 * 10 ^ e2 = m2 * 10 ^ e1)
  | .posInf, .posInf => true
  | .negInf, .negInf => true
  | _, _ => false

/-- The `SameValueZero` relation, the key equality of JS `Map` and `Set`. -/
def JSNum.svz : JSNum → JSNum → Bool
  | .nan, .nan => true
  | .finite m1 e1, .finite m2 e2 => decide (m1 * 10 ^ e2 = m2 * 10 ^ e1)
  | .posInf, .posInf => true
  | .negInf, .negInf => true
  | _, _ => false

/-- Remove trailing `'0'` characters (JS prints the shortest decimal
fraction). -/
def stripTrailingZeros (ds : List Char) : List Char :=
  (ds.reverse.dropWhile fun c => c = '0').reverse

/-- Left-pad a digit string with zeros to `e` digits. -/
def padZeros (e : Nat) (ds : List Char) : List Char :=
  List.replicate (e - ds.length) '0' ++ ds

/-- The unsigned decimal spelling of `|m| / 10 ^ e`: integer digits, and
a dot followed by the fractional digits when the value is not an
integer. -/
def jsBody (m : ℤ) (e : ℕ) : List Char :=
  if stripTrailingZeros (padZeros e (natDigits (m.natAbs % 10 ^ e))) = [] then
    natDigits (m.natAbs / 10 ^ e)
  else
    natDigits (m.natAbs / 10 ^ e) ++
      '.' :: stripTrailingZeros (padZeros e (natDigits (m.natAbs % 10 ^ e)))

/-- The model of JS number-to-string conversion (as used by the template
literal in `handleNumeric`): special strings for the non-finite values,
otherwise an optional sign followed by the decimal spelling.  (JS
switches to exponent notation for extreme magnitudes; no claim depends
on those.) -/
def JSNum.toJsStr : JSNum → String
  | .nan => "NaN"
  | .posInf => "Infinity"
  | .negInf => "-Infinity"
  | .finite m e => String.mk (if m < 0 then '-' :: jsBody m e else jsBody m e)

/-- Parse an unsigned decimal body, negating if `neg`; used by the model
of `Number()` below. -/
def jsParseSigned (neg : Bool) (body : List Char) : JSNum :=
  if body = [] then .nan
  else
    match splitOnChar '.' body with
    | [a] =>
      match digitsToNat a with
      | some n => .finite (if neg then -(n : ℤ) else (n : ℤ)) 0
      | none => .nan
    | [a, b] =>
      match digitsToNat a, digitsToNat b with
      | some n, some f =>
        .finite (if neg then -((n : ℤ) * 10 ^ b.length + (f : ℤ))
                 else (n : ℤ) * 10 ^ b.length + (f : ℤ)) b.length
      | _, _ => .nan
    | _ => .nan

/-- The model of JS `Number(string)` on the strings produced in this
development: the three special spellings, an optional sign, decimal
digits with at most one dot; everything else is `NaN`.  (`Number("")` is
`0`; hexadecimal and exponent forms are not modelled, as no value in
this development produces them.) -/
def jsNumberParse (s : String) : JSNum :=
  if s.data = "NaN".data then .nan
  else if s.data = "Infinity".data then .posInf
  else if s.data = "-Infinity".data then .negInf
  else if s.data = [] then .finite 0 0
  else jsParseSigned (decide (s.data.head? = some '-'))
        (if s.data.head? = some '-' then s.data.tail else s.data)

/-! ## JS values

Runtime JavaScript values as the engine sees them: strings, numbers,
booleans, and objects.  An object is encoded as a sequence of key/value
fields (`ocons`/`onil`), iterated in insertion order exactly as
`Object.keys` and `for..in` do.  Schemas, documents and `where` clauses
are all `JVal`s, as they are all plain objects at runtime. -/

inductive JVal : Type where
  | str (s : String)
  | num (n : JSNum)
  | bool (b : Bool)
  | onil
  | ocons (key : String) (value : JVal) (rest : JVal)
deriving DecidableEq, Repr

/-- JS `typeof`. -/
def JVal.typeofStr : JVal → String
  | .str _ => "string"
  | .num _ => "number"
  | .bool _ => "boolean"
  | .onil => "object"
  | .ocons _ _ _ => "object"

/-- Property lookup, `obj[key]`, `none` for a missing key or a
non-object. -/
def JVal.lookupKey : JVal → String → Option JVal
  | .ocons k v rest, key => if k = key then some v else rest.lookupKey key
  | _, _ => none

/-- JS `Object.keys`: the own keys of an object in insertion order, `[]`
for a non-object primitive. -/
def JVal.keysList : JVal → List String
  | .ocons k _ rest => k :: rest.keysList
  | _ => []

/-- JS falsiness of the values in the model (`false`, `0`, `NaN`, `""`). -/
def JVal.isFalsy : JVal → Bool
  | .bool b => !b
  | .num (.finite m _) => decide (m = 0)
  | .num .nan => true
  | .str s => decide (s = "")
  | _ => false

/-- Modelled from the spec (§7, error taxonomy; the `errors` module is
not among the given sources).  `typeError` stands for a plain JS runtime
`TypeError` (calling a method of `undefined`, tokenizing a non-string),
which the spec's taxonomy does not cover but the `delete` slip produces. -/
inductive LyraError : Type where
  | languageNotSupported (lang : String)
  | invalidSchemaType (found : String)
  | invalidDocSchema
  | invalidProperty (name : String)
  | invalidQueryParams (value : String)
  | docIdDoesNotExist (id : String)
  | indexRemovalFailure (id fld tkn : String)
  | typeError (msg : String)
deriving DecidableEq, Repr

/-- Modelled from the spec (§6: "a fixed enumerated set known to the
tokenizer; the default is English"; the `stemmer` module is not among
the given sources).  The exact membership beyond `"english"` is
immaterial to every claim. -/
def SUPPORTED_LANGUAGES : List String :=
  ["dutch", "english", "french", "italian", "norwegian", "portuguese",
   "russian", "spanish", "swedish"]

/-- Modelled from the spec (§4.1): the tokenizer is an external,
pluggable collaborator; the model takes it as a parameter mapping
(text, language) to the token list. -/
abbrev Tokenizer := String → String → List String

/-- A concrete tokenizer used to instantiate witnesses: split on spaces
and drop empty pieces. -/
def simpleTok : Tokenizer := fun text _ =>
  (splitOnChar ' ' text.data).filterMap fun cs =>
    if cs.isEmpty then none else some (String.mk cs)

/-- Modelled from the spec (§4.2; the radix-tree module is not among the
given sources): the tree is abstracted to its mapping from terminal
tokens to posting sets, which determines the behavior of every
operation the engine calls. -/
abbrev Trie := List (String × List String)

def trieInsert (t : Trie) (token id : String) : Trie :=
  alistSet t token (addUnique ((alistGet t token).getD []) id)

def trieInsertTokens (t : Trie) (tokens : List String) (id : String) : Trie :=
  tokens.foldl (fun tt tkn => trieInsert tt tkn id) t

/-- Modelled from the spec (§4.2 `remove(token, id)`): remove the id
from the token's posting set, unsetting the terminal when the posting
set empties.  The Boolean result is the failure flag the `delete` call
site tests (truthy means failure, per §7's `IndexRemovalFailure`; §9
notes the convention is ambiguous); the model's removal never fails. -/
def trieRemoveDocByWord (t : Trie) (token id : String) : Trie × Bool :=
  match alistGet t token with
  | none => (t, false)
  | some ids =>
    let ids' := ids.filter (· ≠ id)
    if ids'.isEmpty then (alistRemove t token, false) else (alistSet t token ids', false)

/-- Levenshtein distance with structural fuel (so concrete evaluation
reduces in the kernel). -/
def levAux : Nat → List Char → List Char → Nat
  | 0, a, b => a.length + b.length
  | _ + 1, [], b => b.length
  | _ + 1, a :: as, [] => (a :: as).length
  | fuel + 1, a :: as, b :: bs =>
    if a = b then levAux fuel as bs
    else 1 + min (levAux fuel as bs) (min (levAux fuel (a :: as) bs) (levAux fuel as (b :: bs)))

def levDist (a b : List Char) : Nat := levAux (a.length + b.length + 1) a b

/-- Modelled from the spec (§4.2 `find`): exact mode returns the term's
posting set when it is non-empty; tolerance 0 returns the terminals
having the term as a prefix; a positive tolerance returns the terminals
within that Levenshtein distance of the term. -/
def trieFind (t : Trie) (term : String) (exact : Bool) (tol : Nat) : List (String × List String) :=
  if exact then
    match alistGet t term with
    | some ids => if ids.isEmpty then [] else [(term, ids)]
    | none => []
  else if tol = 0 then t.filter fun p => listIsPfxOf term.data p.1.data
  else t.filter fun p => decide (levDist term.data p.1.data ≤ tol)

/-- A per-path numeric index: a JS `Map` from numbers to posting sets,
with `SameValueZero` key equality. -/
abbrev NumMap := List (JSNum × List String)

def numGet (m : NumMap) (k : JSNum) : Option (List String) :=
  match m with
  | [] => none
  | (k', v) :: rest => if k'.svz k then some v else numGet rest k

def numSet (m : NumMap) (k : JSNum) (v : List String) : NumMap :=
  match m with
  | [] => [(k, v)]
  | (k', v') :: rest => if k'.svz k then (k', v) :: rest else (k', v') :: numSet rest k v

/-! ## The engine state and its constructor -/

/-- The mutable fields of the `Lyra` class: the document table, the text
index (one `Trie` per string flat path), the numeric index (one number
map per numeric flat path) and the boolean index (a posting set per
`path_true` / `path_false` key). -/
structure LyraState : Type where
  schema : JVal
  defaultLanguage : String
  docs : List (String × JVal)
  index : List (String × Trie)
  numericIndex : List (String × NumMap)
  booleanIndex : List (String × List String)
deriving DecidableEq, Repr

/-- The method `Lyra.prototype.buildIndex`: walk the schema, creating one index per
recognized leaf at its flat (dotted) path.  `typeof prop` in the source
inspects the key produced by `Object.keys`, which is always a string, so
the `INVALID_SCHEMA_TYPE` throw is kept verbatim but can never fire;
leaf values other than the three known type names fall through every
branch and are silently skipped. -/
def Lyra.buildIndex : JVal → String → LyraState → Except LyraError LyraState
  | .ocons prop propValue rest, pfx, st =>
    if ("string" : String) ≠ "string" then .error (.invalidSchemaType "string")
    else if propValue.typeofStr = "object" then
      Except.bind (Lyra.buildIndex propValue (pfx ++ prop ++ ".") st)
        (fun st1 => Lyra.buildIndex rest pfx st1)
    else if propValue = .str "string" then
      Lyra.buildIndex rest pfx { st with index := alistSet st.index (pfx ++ prop) [] }
    else if propValue = .str "boolean" then
      Lyra.buildIndex rest pfx
        { st with booleanIndex := alistSet (alistSet st.booleanIndex (pfx ++ prop ++ "_true") []) (pfx ++ prop ++ "_false") [] }
    else if propValue = .str "number" then
      Lyra.buildIndex rest pfx { st with numericIndex := alistSet st.numericIndex (pfx ++ prop) [] }
    else Lyra.buildIndex rest pfx st
  | _, _, st => .ok st

/-- The `Lyra` constructor: check the configured language, then build
the indices over empty tables.  (The source lower-cases the configured
language name; the model's callers pass lower-case names directly.) -/
def Lyra.mk (schema : JVal) (lang : String) : Except LyraError LyraState :=
  if SUPPORTED_LANGUAGES.contains lang = false then .error (.languageNotSupported lang)
  else
    Lyra.buildIndex schema ""
      { schema := schema, defaultLanguage := lang, docs := [],
        index := [], numericIndex := [], booleanIndex := [] }

/-- Extract the state of a successful construction (total helper for
concrete examples). -/
def okState (e : Except LyraError LyraState) : LyraState :=
  match e with
  | .ok st => st
  | .error _ =>
    { schema := .onil, defaultLanguage := "english", docs := [],
      index := [], numericIndex := [], booleanIndex := [] }

/-! ## Insertion -/

/-- The body of `checkInsertDocSchema` (`recursiveCheck` in the source):
every key of the document must exist in the schema and primitive leaves
must have the `typeof` named by the schema.  For a nested object the
source computes `recursiveCheck(newDoc[key], schema)` — note: against
the TOP-LEVEL schema, not `schema[key]` — and DISCARDS the result; the
discarded call has no effect and is therefore omitted here. -/
def Lyra.recursiveCheck (newDoc : JVal) (schema : JVal) : Bool :=
  match newDoc with
  | .ocons key v rest =>
    match schema.lookupKey key with
    | none => false
    | some sv =>
      if v.typeofStr = "object" then Lyra.recursiveCheck rest schema
      else if sv = .str v.typeofStr then Lyra.recursiveCheck rest schema
      else false
  | _ => true

def Lyra.checkInsertDocSchema (st : LyraState) (doc : JVal) : Bool :=
  Lyra.recursiveCheck doc st.schema

/-- The walk `recursiveTrieInsertion` inside `Lyra.prototype._insert`: walk the
document, tokenizing string leaves into the text index and recording
boolean and numeric leaves in their indices; unknown flat paths are
skipped by the optional-chaining calls. -/
def Lyra.insertWalk (tok : Tokenizer) (lang id : String) (flds : JVal) (pfx : String)
    (st : LyraState) : LyraState :=
  match flds with
  | .ocons key v rest =>
    let propName := pfx ++ key
    let st1 :=
      match v with
      | .ocons _ _ _ => Lyra.insertWalk tok lang id v (propName ++ ".") st
      | .onil => Lyra.insertWalk tok lang id v (propName ++ ".") st
      | .str s =>
        match alistGet st.index propName with
        | some t =>
          { st with index := alistSet st.index propName (trieInsertTokens t (tok s lang) id) }
        | none => st
      | .bool b =>
        let bkey := propName ++ "_" ++ (if b then "true" else "false")
        match alistGet st.booleanIndex bkey with
        | some ids => { st with booleanIndex := alistSet st.booleanIndex bkey (addUnique ids id) }
        | none => st
      | .num n =>
        match alistGet st.numericIndex propName with
        | some m =>
          let m' :=
            match numGet m n with
            | some ids => numSet m n (addUnique ids id)
            | none => m ++ [(n, [id])]
          { st with numericIndex := alistSet st.numericIndex propName m' }
        | none => st
    Lyra.insertWalk tok lang id rest pfx st1
  | _ => st

/-- The method `Lyra.prototype._insert`: store the document in the table, then walk
it into the indices. -/
def Lyra.applyInsert (st : LyraState) (id : String) (doc : JVal) (lang : String)
    (tok : Tokenizer) : LyraState :=
  Lyra.insertWalk tok lang id doc "" { st with docs := alistSet st.docs id doc }

/-- The method `Lyra.prototype.insert`: check the language, check the document
against the schema, and only then mutate (the write queue serializes the
application; the model applies it directly).  The generated `nanoid` is
taken as the `newId` parameter.  A thrown error is modelled by returning
the error together with the untouched state. -/
def Lyra.insert (st : LyraState) (newId : String) (doc : JVal) (lang : String)
    (tok : Tokenizer) : (Except LyraError String) × LyraState :=
  if SUPPORTED_LANGUAGES.contains lang = false then (.error (.languageNotSupported lang), st)
  else if Lyra.checkInsertDocSchema st doc = false then (.error .invalidDocSchema, st)
  else (.ok newId, Lyra.applyInsert st newId doc lang tok)

/-! ## Deletion -/

/-- The field loop of `Lyra.prototype.delete`: for each TOP-LEVEL key of
the stored document the source takes `this.index.get(key)!` (undefined
for a non-text key) and calls `tokenize(document[key])` (a runtime
`TypeError` for a non-string value; the tokenizer's omitted language
argument defaults to english).  The boolean and numeric indices are
never touched.  The result pairs the outcome with the (possibly
partially mutated) text index. -/
def Lyra.deleteFields (tok : Tokenizer) (docID : String) (flds : JVal)
    (idx : List (String × Trie)) : (Except LyraError Unit) × List (String × Trie) :=
  match flds with
  | .ocons key v rest =>
    match v with
    | .str s =>
      let tokens := tok s "english"
      match alistGet idx key with
      | none =>
        if tokens.isEmpty then Lyra.deleteFields tok docID rest idx
        else (.error (.typeError "removeDocByWord of undefined"), idx)
      | some t =>
        let t' := tokens.foldl (fun tt tkn => (trieRemoveDocByWord tt tkn docID).1) t
        Lyra.deleteFields tok docID rest (alistSet idx key t')
    | _ => (.error (.typeError "tokenize expects a string"), idx)
  | _ => (.ok (), idx)

/-- The method `Lyra.prototype.delete`: fail on an unknown id, walk the stored
document's top-level fields through the text index, then drop the
document from the table.  On a thrown error the document table and the
boolean and numeric indices are left as they were. -/
def Lyra.delete (st : LyraState) (docID : String) (tok : Tokenizer) :
    (Except LyraError Bool) × LyraState :=
  match alistGet st.docs docID with
  | none => (.error (.docIdDoesNotExist docID), st)
  | some doc =>
    match Lyra.deleteFields tok docID doc st.index with
    | (.error e, idx') => (.error e, { st with index := idx' })
    | (.ok _, idx') =>
      (.ok true, { st with index := idx', docs := alistRemove st.docs docID })

/-! ## The where clause: validation and filter evaluation -/

def allowedNumericComparison : List String := [">=", ">", "=", "<", "<="]

/-- The closure `handleBoolean` inside `getNonSearchableIndices`: a boolean schema
field demands a bare boolean value and pushes the posting-set key
`propName_true` / `propName_false`.  (The source pushes before the loop
continues; the model passes the continuation's result in, which throws
and accumulates identically.) -/
def Lyra.gNSIBool (pv : JVal) (propName : String)
    (restRes : Except LyraError (List String × List String)) :
    Except LyraError (List String × List String) :=
  match pv with
  | .bool b =>
    match restRes with
    | .ok (bs, ns) => .ok ((propName ++ "_" ++ (if b then "true" else "false")) :: bs, ns)
    | .error e => .error e
  | _ => .error (.invalidQueryParams propName)

/-- The closure `handleNumeric` inside `getNonSearchableIndices`: a numeric schema
field demands an object with exactly one key, drawn from
`allowedNumericComparison`, holding a number, and is encoded as the
virtual index `propName.op.value` — the dotted string the source later
re-parses. -/
def Lyra.gNSINumVal : Option JVal → String → String →
    Except LyraError (List String × List String) →
    Except LyraError (List String × List String)
  | some (.num n), k, propName, restRes =>
    (match restRes with
     | .ok (bs, ns) => .ok (bs, (propName ++ "." ++ k ++ "." ++ n.toJsStr) :: ns)
     | .error e => .error e)
  | _, _, propName, _ => .error (.invalidQueryParams propName)

def Lyra.gNSINumKey : Option String → JVal → String →
    Except LyraError (List String × List String) →
    Except LyraError (List String × List String)
  | none, _, propName, _ => .error (.invalidQueryParams propName)
  | some k, pv, propName, restRes =>
    if allowedNumericComparison.contains k = false then .error (.invalidQueryParams k)
    else Lyra.gNSINumVal (pv.lookupKey k) k propName restRes

def Lyra.gNSINum (pv : JVal) (propName : String)
    (restRes : Except LyraError (List String × List String)) :
    Except LyraError (List String × List String) :=
  if 1 < pv.keysList.length then .error (.invalidQueryParams propName)
  else Lyra.gNSINumKey pv.keysList.head? pv propName restRes

/-- The field loop of `Lyra.prototype.getNonSearchableIndices`: walk the
`where` object against the schema.  Keys that are unknown or of any
other schema type (text) fall through the if/else-if chain and are
silently skipped; a nested schema object recurses.  A primitive in
place of a `where` object contributes no keys, which also covers the
source's falsy early return (objects are never falsy). -/
def Lyra.gNSIFields (flds : JVal) (schema : JVal) (pfx : String) :
    Except LyraError (List String × List String) :=
  match flds with
  | .ocons key pv rest =>
    match schema.lookupKey key with
    | none => Lyra.gNSIFields rest schema pfx
    | some sv =>
      if sv = .str "boolean" then
        Lyra.gNSIBool pv (pfx ++ key) (Lyra.gNSIFields rest schema pfx)
      else if sv = .str "number" then
        Lyra.gNSINum pv (pfx ++ key) (Lyra.gNSIFields rest schema pfx)
      else if sv.typeofStr = "object" then
        match Lyra.gNSIFields pv sv (pfx ++ key ++ ".") with
        | .error e => .error e
        | .ok (b2, n2) =>
          match Lyra.gNSIFields rest schema pfx with
          | .error e => .error e
          | .ok (b3, n3) => .ok (b2 ++ b3, n2 ++ n3)
      else Lyra.gNSIFields rest schema pfx
  | _ => .ok ([], [])

/-- The method `Lyra.prototype.getNonSearchableIndices`: an absent `where` yields
no constraints; otherwise walk its fields. -/
def Lyra.getNonSearchableIndices (w : Option JVal) (schema : JVal) (pfx : String) :
    Except LyraError (List String × List String) :=
  match w with
  | none => .ok ([], [])
  | some wv => Lyra.gNSIFields wv schema pfx

/-- The method `Lyra.prototype.createPredicateForNumericComparison`; the operator
is `none` when the re-parsed dotted string had no second-to-last
segment (the switch's default arm then admits everything). -/
def Lyra.createPredicateForNumericComparison (operator : Option String)
    (valueSearched : JSNum) : JSNum → Bool :=
  match operator with
  | some "<" => fun value => value.jsLt valueSearched
  | some "<=" => fun value => value.jsLe valueSearched
  | some "=" => fun value => value.jsEqq valueSearched
  | some ">" => fun value => valueSearched.jsLt value
  | some ">=" => fun value => valueSearched.jsLe value
  | _ => fun _ => true

/-- Modelled from the spec (§4.6 step 3; the `utils` module is not among
the given sources): null-aware set intersection where `none` is the
no-constraint sentinel; `none` results only when both arguments are
`none`. -/
def setIntersection (a b : Option (List String)) : Option (List String) :=
  match a, b with
  | none, none => none
  | some x, none => some x
  | none, some y => some y
  | some x, some y => some (x.filter fun v => y.contains v)

/-- Modelled from the spec (§4.6 step 5, "Subtract already-emitted
ids"; the `utils` module is not among the given sources; the call site
mutates its first argument in place). -/
def setSubtraction (a b : List String) : List String :=
  a.filter fun v => !(b.contains v)

/-- The method `Lyra.prototype.getDocumentIDsFromWhere`: union the boolean posting
sets, re-parse each virtual numeric index string (split on dots; the
last two segments are the operator and the target), union the posting
sets of the numeric keys satisfying the predicate, and intersect the
two — each side participating only when its list of indices is
non-empty. -/
def Lyra.getDocumentIDsFromWhere (st : LyraState) (boolIndices numericIndices : List String) :
    Option (List String) :=
  let booleanIds := boolIndices.foldl (fun acc bi =>
    match alistGet st.booleanIndex bi with
    | none => acc
    | some ids => ids.foldl addUnique acc) []
  let numericIds := numericIndices.foldl (fun acc vni =>
    let rawIndex := splitOnChar '.' vni.data
    let numericKey := String.mk (List.intercalate ['.'] (rawIndex.dropLast.dropLast))
    let operator := (rawIndex.dropLast.getLast?).map String.mk
    let valueSearched := jsNumberParse (String.mk ((rawIndex.getLast?).getD []))
    match alistGet st.numericIndex numericKey with
    | none => acc
    | some m =>
      let pred := Lyra.createPredicateForNumericComparison operator valueSearched
      ((m.map Prod.fst).filter pred).foldl (fun a k =>
        match numGet m k with
        | none => a
        | some ids => ids.foldl addUnique a) acc) []
  setIntersection (if boolIndices.length > 0 then some booleanIds else none)
    (if numericIndices.length > 0 then some numericIds else none)

/-! ## Search -/

/-- The `properties` search parameter: absent, a string (only `"*"` is
legal), or an array of flat paths. -/
inductive PropsParam : Type where
  | missing
  | strParam (s : String)
  | arr (ps : List String)
deriving DecidableEq, Repr

/-- The search parameters (`SearchParams` in the source); `exact`
defaults to false, `limit` to 10, `offset` to 0, `tolerance` to 0. -/
structure SearchParamsM : Type where
  term : String
  props : PropsParam
  limit : Option Nat
  offset : Option Nat
  exact : Option Bool
  tolerance : Option Nat
  whereClause : Option JVal
deriving DecidableEq, Repr

/-- The method `Lyra.prototype.getIndices`: resolve the requested text paths
against the known ones, failing with `InvalidProperty` on the first
unknown entry. -/
def Lyra.getIndices (st : LyraState) (props : PropsParam) : Except LyraError (List String) :=
  match props with
  | .missing => .ok (st.index.map Prod.fst)
  | .strParam s =>
    if s = "*" then .ok (st.index.map Prod.fst)
    else .error (.invalidProperty s)
  | .arr ps =>
    match ps.find? (fun p => !((st.index.map Prod.fst).contains p)) with
    | some bad => .error (.invalidProperty bad)
    | none => .ok ps

/-- The method `Lyra.prototype.getDocumentIDsFromSearch`: look the field's trie up
(an unknown field yields no ids through the optional chain) and union
the posting sets of the `find` result into a fresh set. -/
def Lyra.getDocumentIDsFromSearch (st : LyraState) (idxName term : String) (exact : Bool)
    (tol : Nat) : List String :=
  match alistGet st.index idxName with
  | none => []
  | some t => (trieFind t term exact tol).foldl (fun acc p => p.2.foldl addUnique acc) []

/-- The accumulator of the search loop: the filled result entries in
order (`results[0..i)` in the source, so `i` is `results.length`), the
`documentAdded` set, the global offset counter `j`, and `totalResults`. -/
structure SearchAcc : Type where
  results : List (String × JVal)
  documentAdded : List String
  j : Nat
  totalResults : Nat
deriving DecidableEq, Repr

/-- A search result: the hit count and the hits array, whose entries are
`none` where the source's pre-allocated `Array.from({length: limit})`
slot was never assigned.  (The `elapsed` timing string is not part of
the model.) -/
structure SearchRes : Type where
  count : Nat
  hits : List (Option (String × JVal))
deriving DecidableEq, Repr

/-- The innermost emission loop of `Lyra.prototype.search`: skip the
first `offset` ids globally, stop at `limit` filled slots, and append
`{id, ...doc}` hits while recording each id in `documentAdded`.  A
dangling id (not in the document table) spreads `undefined`, modelled
as the empty object. -/
def Lyra.emitIds (docs : List (String × JVal)) (limit offset : Nat) :
    List String → SearchAcc → SearchAcc
  | [], acc => acc
  | id :: rest, acc =>
    if acc.j < offset then
      Lyra.emitIds docs limit offset rest { acc with j := acc.j + 1 }
    else if limit ≤ acc.results.length then acc
    else
      Lyra.emitIds docs limit offset rest
        { acc with
          results := acc.results ++ [(id, (alistGet docs id).getD .onil)],
          documentAdded := acc.documentAdded ++ [id] }

/-- The per-token loop over the selected text indices in
`Lyra.prototype.search`: fetch the candidate ids, intersect with the
filter set, subtract the already-added ids, account the remaining count
into `totalResults`, and emit — breaking out of this (inner) loop once
`limit` slots are filled, while the outer token loop continues.  (The
source updates `totalResults` before testing `i >= limit`; the update
does not change `i`, so the test reads the untouched fill count.) -/
def Lyra.searchIndexLoop (st : LyraState) (exact : Bool) (tol : Nat) (limit offset : Nat)
    (dFromWhere : Option (List String)) (token : String) :
    List String → SearchAcc → SearchAcc
  | [], acc => acc
  | idxName :: rest, acc =>
    let ids0 := Lyra.getDocumentIDsFromSearch st idxName token exact tol
    let ids1 := (setIntersection (some ids0) dFromWhere).getD []
    let ids2 := setSubtraction ids1 acc.documentAdded
    if ids2.isEmpty then
      Lyra.searchIndexLoop st exact tol limit offset dFromWhere token rest acc
    else
      if limit ≤ acc.results.length then
        { acc with totalResults := acc.totalResults + ids2.length }
      else
        Lyra.searchIndexLoop st exact tol limit offset dFromWhere token rest
          (Lyra.emitIds st.docs limit offset ids2
            { acc with totalResults := acc.totalResults + ids2.length })

/-- The method `Lyra.prototype.search`: tokenize the term, resolve the text
indices, normalize the `where` clause, compute the filter set once, run
the token × index loops, and assemble the hits array (filled prefix
plus the never-assigned `undefined` slots of the pre-allocated
`limit`-length array). -/
def Lyra.search (st : LyraState) (p : SearchParamsM) (lang : String) (tok : Tokenizer) :
    Except LyraError SearchRes :=
  let tokens := tok p.term lang
  match Lyra.getIndices st p.props with
  | .error e => .error e
  | .ok indices =>
    match Lyra.getNonSearchableIndices p.whereClause st.schema "" with
    | .error e => .error e
    | .ok (bIdx, nIdx) =>
      let limit := p.limit.getD 10
      let offset := p.offset.getD 0
      let exact := p.exact.getD false
      let tol := p.tolerance.getD 0
      let dFromWhere := Lyra.getDocumentIDsFromWhere st bIdx nIdx
      let acc := tokens.foldl
        (fun acc token =>
          Lyra.searchIndexLoop st exact tol limit offset dFromWhere token indices acc)
        { results := [], documentAdded := [], j := 0, totalResults := 0 }
      .ok { count := acc.totalResults,
            hits := acc.results.map some ++ List.replicate (limit - acc.results.length) none }

/-! ## Concrete fixtures used by witnesses and counterexamples -/

def exSchemaTitle : JVal := .ocons "title" (.str "string") .onil

def exStateTitle : LyraState := okState (Lyra.mk exSchemaTitle "english")

def exSchemaTB : JVal :=
  .ocons "title" (.str "string") (.ocons "inStock" (.str "boolean") .onil)

def exDocTB : JVal :=
  .ocons "title" (.str "lyra") (.ocons "inStock" (.bool true) .onil)

def exStateTB : LyraState :=
  (Lyra.insert (okState (Lyra.mk exSchemaTB "english")) "A" exDocTB "english" simpleTok).2

def exSchemaNested : JVal := .ocons "author" (.ocons "name" (.str "string") .onil) .onil

def exStateNested : LyraState := okState (Lyra.mk exSchemaNested "english")

def exDocNestedBad : JVal :=
  .ocons "author" (.ocons "name" (.num (.finite 42 0)) .onil) .onil

def exSchemaYear : JVal := .ocons "year" (.str "number") .onil

def exStateYear : LyraState := okState (Lyra.mk exSchemaYear "english")

/-- A tokenizer producing no tokens, for the empty-token-stream witness. -/
def noTok : Tokenizer := fun _ _ => []

def pEmpty : SearchParamsM :=
  { term := "", props := .missing, limit := none, offset := none,
    exact := none, tolerance := none, whereClause := none }

def rEmpty : SearchRes := { count := 0, hits := List.replicate 10 none }

def p5 : SearchParamsM :=
  { term := "lyra", props := .missing, limit := some 5, offset := none,
    exact := none, tolerance := none, whereClause := none }

def r5 : SearchRes :=
  { count := 1, hits := [some ("A", exDocTB), none, none, none, none] }

/-! ## Claim C5: hits bounded by limit, no duplicate ids -/

/-- The invariant carried through the search loops: the filled results
have pairwise distinct ids, every filled id has been recorded in
`documentAdded`, and no more than `limit` slots are filled. -/
def accInv (limit : Nat) (acc : SearchAcc) : Prop :=
  (acc.results.map Prod.fst).Nodup ∧
  (∀ a ∈ acc.results.map Prod.fst, a ∈ acc.documentAdded) ∧
  acc.results.length ≤ limit

/-! ## Claim C4: where-clause validation -/

/-- A boolean schema field given a non-boolean value. -/
def boolEntryViolation : JVal → Bool
  | .bool _ => false
  | _ => true

/-- A numeric comparison object whose single value is not a number. -/
def numericValViolation : Option JVal → Bool
  | some (.num _) => false
  | _ => true

/-- A numeric comparison object whose single operator is missing or
outside the enumerated set, or whose value is not a number. -/
def numericKeyViolation : Option String → JVal → Bool
  | none, _ => true
  | some k, pv => !(allowedNumericComparison.contains k) || numericValViolation (pv.lookupKey k)

/-- The violations the walk rejects at a numeric schema field: not
exactly one key, an operator outside the enumerated set, or a
non-number comparison value. -/
def numericEntryViolation (pv : JVal) : Bool :=
  decide (pv.keysList.length ≠ 1) || numericKeyViolation pv.keysList.head? pv

/-- The spec-side characterization of a rejected `where` clause: some
entry reachable by the walk pairs a boolean schema field with a
non-boolean value, or a numeric schema field with a violating
comparison object; entries at unknown keys or keys of other schema
types (text) are skipped, and nested schema objects recurse. -/
def whereViolation : JVal → JVal → Bool
  | .ocons key pv rest, schema =>
    (match schema.lookupKey key with
     | some sv =>
       if sv = .str "boolean" then boolEntryViolation pv
       else if sv = .str "number" then numericEntryViolation pv
       else if sv.typeofStr = "object" then whereViolation pv sv
       else false
     | none => false) || whereViolation rest schema
  | _, _ => false

/-! ## Claim C7: index construction -/

/-- The flat (dotted) paths of the schema's leaves of the given type, in
depth-first order — the spec's "set of leaves of the schema of the
matching leaf type" (§3). -/
def leafPaths (lt : String) : JVal → String → List String
  | .ocons key v rest, pfx =>
    (if v.typeofStr = "object" then leafPaths lt v (pfx ++ key ++ ".")
     else if v = .str lt then [pfx ++ key] else []) ++ leafPaths lt rest pfx
  | _, _ => []

/-- The boolean index keys a schema should produce: a `_true` and a
`_false` posting-set key per boolean leaf. -/
def boolIdxKeys (schema : JVal) (pfx : String) : List String :=
  (leafPaths "boolean" schema pfx).flatMap fun p => [p ++ "_true", p ++ "_false"]

/-- A schema all of whose leaves are among the three known leaf types
(nested objects recurse; the schema itself must be an object). -/
def validSchemaB : JVal → Bool
  | .onil => true
  | .ocons _ v rest =>
    (if v.typeofStr = "object" then validSchemaB v
     else if v = .str "string" then true
     else if v = .str "boolean" then true
     else if v = .str "number" then true
     else false) && validSchemaB rest
  | _ => false

def c7Schema : JVal :=
  .ocons "title" (.str "string")
    (.ocons "year" (.str "number")
      (.ocons "author" (.ocons "name" (.str "string") .onil)
        (.ocons "inStock" (.str "boolean") .onil)))

/-! ## Claim C3: numeric filter -/

/-- The claim's mathematical reading of `x op v`. -/
def specNumCmp (op : String) (x target : ℚ) : Prop :=
  if op = "<" then x < target
  else if op = "<=" then x ≤ target
  else if op = "=" then x = target
  else if op = ">" then target < x
  else if op = ">=" then target ≤ x
  else False

def c3Schema : JVal :=
  .ocons "title" (.str "string") (.ocons "year" (.str "number") .onil)

def c3Doc : JVal :=
  .ocons "title" (.str "lyra") (.ocons "year" (.num (.finite 2020 0)) .onil)

def c3State : LyraState :=
  (Lyra.insert (okState (Lyra.mk c3Schema "english")) "A" c3Doc "english" simpleTok).2

def c3WhereBad : JVal :=
  .ocons "year" (.ocons ">" (.num (.finite 20195 1)) .onil) .onil

def c3ParamsBad : SearchParamsM :=
  { term := "lyra", props := .missing, limit := none, offset := none, exact := none,
    tolerance := none, whereClause := some c3WhereBad }

/-! ## Character-list utilities (the model of the JS string operations) -/

theorem splitOnChar_ne_nil (sep : Char) (l : List Char) : splitOnChar sep l ≠ [] := by
  cases l with
  | nil => simp [splitOnChar]
  | cons c rest =>
    simp only [splitOnChar]
    cases h : splitOnChar sep rest with
    | nil => simp
    | cons s ss => by_cases hc : c = sep <;> simp [hc]

theorem splitOnChar_append (sep : Char) (a b : List Char) :
    splitOnChar sep (a ++ sep :: b) = splitOnChar sep a ++ splitOnChar sep b := by
  induction a with
  | nil =>
    simp only [List.nil_append, splitOnChar]
    cases h : splitOnChar sep b with
    | nil => exact absurd h (splitOnChar_ne_nil sep b)
    | cons s ss => simp [splitOnChar]
  | cons c rest ih =>
    cases h : splitOnChar sep rest with
    | nil => exact absurd h (splitOnChar_ne_nil sep rest)
    | cons s ss =>
      show splitOnChar sep (c :: (rest ++ sep :: b)) = _
      simp only [splitOnChar, ih, h, List.cons_append]
      by_cases hc : c = sep <;> simp [hc]

theorem splitOnChar_of_not_mem (sep : Char) (l : List Char) (h : sep ∉ l) :
    splitOnChar sep l = [l] := by
  induction l with
  | nil => rfl
  | cons c rest ih =>
    simp only [List.mem_cons, not_or] at h
    simp [splitOnChar, ih h.2, Ne.symm h.1, h.1]

theorem intercalate_splitOnChar (sep : Char) (l : List Char) :
    List.intercalate [sep] (splitOnChar sep l) = l := by
  induction l with
  | nil => rfl
  | cons c rest ih =>
    simp only [splitOnChar]
    cases h : splitOnChar sep rest with
    | nil => exact absurd h (splitOnChar_ne_nil sep rest)
    | cons s ss =>
      rw [h] at ih
      by_cases hc : c = sep
      · subst hc
        simpa [List.intercalate] using congrArg (c :: ·) ih
      · simp only [if_neg hc]
        cases ss with
        | nil => simpa [List.intercalate] using congrArg (c :: ·) ih
        | cons t ts =>
          simp only [List.intercalate] at ih ⊢
          simpa using congrArg (c :: ·) ih

theorem addUnique_nodup (l : List String) (x : String) (h : l.Nodup) :
    (addUnique l x).Nodup := by
  unfold addUnique
  split
  · exact h
  · simpa [List.nodup_append] using ⟨h, by assumption⟩

theorem mem_addUnique (l : List String) (x y : String) :
    y ∈ addUnique l x ↔ y ∈ l ∨ y = x := by
  unfold addUnique
  split
  · constructor
    · exact Or.inl
    · rintro (hy | rfl) <;> [exact hy; assumption]
  · simp

theorem foldl_addUnique_nodup (ids : List String) (acc : List String) (h : acc.Nodup) :
    (ids.foldl addUnique acc).Nodup := by
  induction ids generalizing acc with
  | nil => exact h
  | cons i rest ih => exact ih _ (addUnique_nodup _ _ h)

theorem mem_foldl_addUnique (ids : List String) (acc : List String) (y : String) :
    y ∈ ids.foldl addUnique acc ↔ y ∈ acc ∨ y ∈ ids := by
  induction ids generalizing acc with
  | nil => simp
  | cons i rest ih =>
    simp only [List.foldl_cons, ih, mem_addUnique, List.mem_cons]
    tauto

/-! ## Association lists (the model of JS `Map` objects) -/

theorem alistGet_set_self {α : Type} (l : List (String × α)) (k : String) (v : α) :
    alistGet (alistSet l k v) k = some v := by
  induction l with
  | nil => simp [alistGet, alistSet]
  | cons p rest ih =>
    obtain ⟨k', v'⟩ := p
    by_cases h : k' = k <;> simp [alistGet, alistSet, h, ih]

theorem alistGet_set_of_ne {α : Type} (l : List (String × α)) (k k' : String) (v : α)
    (h : k ≠ k') : alistGet (alistSet l k v) k' = alistGet l k' := by
  induction l with
  | nil => simp [alistGet, alistSet, h]
  | cons p rest ih =>
    obtain ⟨k0, v0⟩ := p
    by_cases h0 : k0 = k <;> simp [alistGet, alistSet, h0, h, ih]

/-! ## Decimal digits: the model of JS number-to-string and `Number()` -/

theorem digitsToNat_append (xs : List Char) (c : Char) :
    digitsToNat (xs ++ [c]) =
      match digitsToNat xs, charDigit c with
      | some a, some d => some (a * 10 + d)
      | _, _ => none := by
  simp [digitsToNat, List.foldl_append]

theorem charDigit_digitChar (n : Nat) (h : n < 10) : charDigit (digitChar n) = some n := by
  interval_cases n <;> decide

theorem digit_le_digitChar (n : Nat) (h : n < 10) :
    48 ≤ (digitChar n).toNat ∧ (digitChar n).toNat ≤ 57 := by
  interval_cases n <;> decide

theorem natDigitsAux_spec (fuel n : Nat) (h : n < fuel) :
    digitsToNat (natDigitsAux fuel n) = some n := by
  induction fuel generalizing n with
  | zero => omega
  | succ fuel ih =>
    by_cases hn : n < 10
    · simp [natDigitsAux, hn, digitsToNat, charDigit_digitChar n hn]
    · have hd : n / 10 < fuel := by omega
      simp only [natDigitsAux, if_neg hn, digitsToNat_append, ih _ hd,
        charDigit_digitChar (n % 10) (Nat.mod_lt n (by omega))]
      have : n / 10 * 10 + n % 10 = n := by omega
      simp [this]

theorem digitsToNat_natDigits (n : Nat) : digitsToNat (natDigits n) = some n :=
  natDigitsAux_spec (n + 1) n (Nat.lt_succ_self n)

theorem natDigitsAux_all_digits (fuel n : Nat) :
    ∀ c ∈ natDigitsAux fuel n, 48 ≤ c.toNat ∧ c.toNat ≤ 57 := by
  induction fuel generalizing n with
  | zero => simp [natDigitsAux]
  | succ fuel ih =>
    intro c hc
    by_cases hn : n < 10
    · simp [natDigitsAux, hn] at hc
      subst hc
      exact digit_le_digitChar n hn
    · simp only [natDigitsAux, if_neg hn, List.mem_append, List.mem_singleton] at hc
      rcases hc with hc | hc
      · exact ih _ _ hc
      · subst hc
        exact digit_le_digitChar (n % 10) (Nat.mod_lt n (by omega))

theorem natDigits_all_digits (n : Nat) :
    ∀ c ∈ natDigits n, 48 ≤ c.toNat ∧ c.toNat ≤ 57 :=
  natDigitsAux_all_digits (n + 1) n

theorem natDigits_ne_nil (n : Nat) : natDigits n ≠ [] := by
  unfold natDigits natDigitsAux
  by_cases hn : n < 10 <;> simp [hn]

theorem dot_not_mem_natDigits (n : Nat) : '.' ∉ natDigits n := by
  intro h
  have := natDigits_all_digits n '.' h
  revert this
  decide

/-! ## JS numbers

JavaScript numbers are embedded as scaled decimals: `finite m e` is the
value `m / 10 ^ e` (every number the engine manipulates has a finite
decimal expansion), plus the three non-finite values.  Comparisons
follow IEEE semantics through integer cross-multiplication: every
comparison involving `nan` is false, and `nan === nan` is false, while
the `SameValueZero` equality used by `Map` keys treats `nan` as equal to
itself.  The mathematical value of `finite m e` is `ratD m e : ℚ`. -/

theorem JSNum.svz_refl (a : JSNum) : a.svz a = true := by
  cases a <;> simp [JSNum.svz]

theorem pow_ten_pos (e : ℕ) : (0 : ℚ) < 10 ^ e := by positivity

theorem jsLt_finite (m1 : ℤ) (e1 : ℕ) (m2 : ℤ) (e2 : ℕ) :
    JSNum.jsLt (.finite m1 e1) (.finite m2 e2) = decide (ratD m1 e1 < ratD m2 e2) := by
  simp only [JSNum.jsLt, ratD]
  rw [decide_eq_decide, div_lt_div_iff₀ (pow_ten_pos e1) (pow_ten_pos e2)]
  constructor <;> intro h <;> exact_mod_cast h

theorem jsLe_finite (m1 : ℤ) (e1 : ℕ) (m2 : ℤ) (e2 : ℕ) :
    JSNum.jsLe (.finite m1 e1) (.finite m2 e2) = decide (ratD m1 e1 ≤ ratD m2 e2) := by
  simp only [JSNum.jsLe, ratD]
  rw [decide_eq_decide, div_le_div_iff₀ (pow_ten_pos e1) (pow_ten_pos e2)]
  constructor <;> intro h <;> exact_mod_cast h

theorem jsEqq_finite (m1 : ℤ) (e1 : ℕ) (m2 : ℤ) (e2 : ℕ) :
    JSNum.jsEqq (.finite m1 e1) (.finite m2 e2) = decide (ratD m1 e1 = ratD m2 e2) := by
  simp only [JSNum.jsEqq, ratD]
  rw [decide_eq_decide,
    div_eq_div_iff (ne_of_gt (pow_ten_pos e1)) (ne_of_gt (pow_ten_pos e2))]
  constructor <;> intro h <;> exact_mod_cast h

theorem jsBody_int (v : ℤ) : jsBody v 0 = natDigits v.natAbs := by
  have h0 : stripTrailingZeros (padZeros 0 (natDigits (v.natAbs % 10 ^ 0))) = [] := by
    rw [pow_zero, Nat.mod_one]
    rfl
  rw [jsBody, if_pos h0, pow_zero, Nat.div_one]

theorem natDigits_ne_special (n : Nat) :
    natDigits n ≠ "NaN".data ∧ natDigits n ≠ "Infinity".data ∧
      natDigits n ≠ "-Infinity".data ∧ (natDigits n).head? ≠ some '-' := by
  have hall := natDigits_all_digits n
  have hne := natDigits_ne_nil n
  refine ⟨?_, ?_, ?_, ?_⟩
  · intro h
    have : 'N' ∈ natDigits n := by rw [h]; decide
    have := hall _ this
    revert this; decide
  · intro h
    have : 'I' ∈ natDigits n := by rw [h]; decide
    have := hall _ this
    revert this; decide
  · intro h
    have : '-' ∈ natDigits n := by rw [h]; decide
    have := hall _ this
    revert this; decide
  · intro h
    obtain ⟨c, cs, hc⟩ := List.exists_cons_of_ne_nil hne
    rw [hc] at h
    simp only [List.head?_cons, Option.some.injEq] at h
    have : c ∈ natDigits n := by rw [hc]; simp
    have := hall _ this
    rw [h] at this
    revert this; decide

theorem jsParseSigned_natDigits (neg : Bool) (n : Nat) :
    jsParseSigned neg (natDigits n) = .finite (if neg then -(n : ℤ) else (n : ℤ)) 0 := by
  rw [jsParseSigned, if_neg (natDigits_ne_nil n),
    splitOnChar_of_not_mem '.' _ (dot_not_mem_natDigits n)]
  simp [digitsToNat_natDigits]

theorem jsNumberParse_toJsStr_int (v : ℤ) :
    jsNumberParse (JSNum.toJsStr (.finite v 0)) = .finite v 0 := by
  obtain ⟨hN, hI, hMI, hhd⟩ := natDigits_ne_special v.natAbs
  by_cases hv : v < 0
  · have hstr : JSNum.toJsStr (.finite v 0) = String.mk ('-' :: natDigits v.natAbs) := by
      rw [JSNum.toJsStr, if_pos hv, jsBody_int]
    have h1 : '-' :: natDigits v.natAbs ≠ "NaN".data := by
      intro h; rw [show "NaN".data = ['N', 'a', 'N'] from rfl] at h; simp at h
    have h2 : '-' :: natDigits v.natAbs ≠ "Infinity".data := by
      intro h
      rw [show "Infinity".data = ['I', 'n', 'f', 'i', 'n', 'i', 't', 'y'] from rfl] at h
      simp at h
    have h3 : '-' :: natDigits v.natAbs ≠ "-Infinity".data := by
      intro h
      rw [show "-Infinity".data = '-' :: "Infinity".data from rfl] at h
      injection h with h3a h3b
      exact hI h3b
    rw [hstr, jsNumberParse]
    simp only [show (String.mk ('-' :: natDigits v.natAbs)).data = '-' :: natDigits v.natAbs
        from rfl, if_neg h1, if_neg h2, if_neg h3,
      if_neg (show ¬('-' :: natDigits v.natAbs = []) by simp), List.head?_cons]
    rw [if_pos trivial, show (decide True) = true from rfl,
      List.tail_cons, jsParseSigned_natDigits, if_pos rfl]
    congr 1
    have := Int.ofNat_natAbs_of_nonpos (le_of_lt hv)
    omega
  · have hstr : JSNum.toJsStr (.finite v 0) = String.mk (natDigits v.natAbs) := by
      rw [JSNum.toJsStr, if_neg hv, jsBody_int]
    rw [hstr, jsNumberParse]
    simp only [show (String.mk (natDigits v.natAbs)).data = natDigits v.natAbs from rfl,
      if_neg hN, if_neg hI, if_neg hMI, if_neg (natDigits_ne_nil v.natAbs)]
    rw [if_neg hhd, decide_eq_false hhd, jsParseSigned_natDigits, if_neg (by simp)]
    congr 1
    have := Int.natAbs_of_nonneg (not_lt.mp hv)
    omega

/-! ## Claim C1: delete -/

/-- C1: the claim states that `delete(d)` removes d from every text
posting set, from every boolean and numeric posting set, and from the
document table, and that no subsequent search returns d.  The code
refutes it: `delete` walks only the top-level keys through the TEXT
index (`this.index.get(key)!`) and tokenizes every value; on the
boolean field `inStock` the trie is `undefined` and `tokenize(true)`
throws a TypeError, so the call fails, the boolean index still holds
the id, and the document never leaves the table — there is no code at
all removing ids from the boolean or numeric indices.  This theorem
evaluates the model at the failing input. -/
theorem lyra_delete_breaks_on_boolean_field :
    (Lyra.delete exStateTB "A" simpleTok).1 = .error (.typeError "tokenize expects a string") ∧
    alistGet (Lyra.delete exStateTB "A" simpleTok).2.booleanIndex "inStock_true" = some ["A"] ∧
    alistGet (Lyra.delete exStateTB "A" simpleTok).2.docs "A" = some exDocTB :=
  ⟨rfl, rfl, rfl⟩

/-! ## Claim C2: document validation -/

/-- C2: the claim states that `insert` rejects a document with a
mismatched leaf type at any depth.  The code refutes it: the recursive
schema check discards the result of the nested call (and passes the
top-level schema down), so `{author: {name: 42}}` against
`{author: {name: "string"}}` validates and is inserted.  This theorem
evaluates the model at the failing input (the spec itself flags this in
§9 as an apparent bug). -/
theorem lyra_nested_doc_check_accepts_invalid :
    Lyra.checkInsertDocSchema exStateNested exDocNestedBad = true ∧
    (Lyra.insert exStateNested "A" exDocNestedBad "english" simpleTok).1 = .ok "A" :=
  ⟨rfl, rfl⟩

/-! ## Claim C6: non-finite numeric leaves -/

/-- C6: the claim (and spec §4.3) states that `insert` rejects
non-finite numeric leaves with `InvalidDocSchema`.  The code refutes
it: validation only compares `typeof`, and `typeof NaN` is `"number"`,
so `{year: NaN}` is accepted and `NaN` is stored as a key of the
numeric index.  This theorem evaluates the model at the failing
input. -/
theorem lyra_insert_accepts_nan_numeric_leaf :
    (Lyra.insert exStateYear "A" (.ocons "year" (.num .nan) .onil) "english" simpleTok).1
        = .ok "A" ∧
    alistGet (Lyra.insert exStateYear "A" (.ocons "year" (.num .nan) .onil) "english"
        simpleTok).2.numericIndex "year" = some [(.nan, ["A"])] :=
  ⟨rfl, rfl⟩

/-! ## Claim C9: failed insert leaves the state unchanged -/

/-- C9: if `insert` throws (`LanguageNotSupported` or
`InvalidDocSchema`), the engine state — the document table and every
index — is exactly as before the call: both checks run before the
queue push, and neither reads nor writes any mutable field. -/
theorem lyra_insert_error_leaves_state_unchanged (st : LyraState) (newId : String)
    (doc : JVal) (lang : String) (tok : Tokenizer) (e : LyraError)
    (h : (Lyra.insert st newId doc lang tok).1 = .error e) :
    (Lyra.insert st newId doc lang tok).2 = st := by
  by_cases h1 : SUPPORTED_LANGUAGES.contains lang = false
  · have hm : lang ∉ SUPPORTED_LANGUAGES := by simpa using h1
    simp [Lyra.insert, h1, hm]
  · have hm : lang ∈ SUPPORTED_LANGUAGES := by simpa using h1
    by_cases h2 : Lyra.checkInsertDocSchema st doc = false
    · simp [Lyra.insert, h1, h2, hm]
    · exfalso
      simp [Lyra.insert, h1, h2, hm] at h

theorem lyra_insert_error_leaves_state_unchanged_witness :
    (Lyra.insert exStateTitle "A" (.ocons "title" (.num (.finite 42 0)) .onil) "english"
        simpleTok).1 = .error .invalidDocSchema ∧
    (Lyra.insert exStateTitle "A" (.ocons "title" (.num (.finite 42 0)) .onil) "english"
        simpleTok).2 = exStateTitle :=
  ⟨rfl, lyra_insert_error_leaves_state_unchanged exStateTitle "A"
    (.ocons "title" (.num (.finite 42 0)) .onil) "english" simpleTok .invalidDocSchema rfl⟩

/-! ## Claim C10: empty token stream -/

theorem filterMap_fst_replicate_none (n : Nat) :
    (List.replicate n (none : Option (String × JVal))).filterMap
      (fun h => h.map Prod.fst) = [] := by
  induction n with
  | zero => rfl
  | succ k ih => simp [List.replicate, ih]

/-- C10: for every engine state and search parameters, if tokenizing
the term yields no tokens and the search returns (its parameter
validation may still throw), the count is 0 and no document id appears
among the hits: the token loop never runs, so the pre-allocated hits
array keeps only unassigned slots. -/
theorem lyra_search_no_tokens_returns_nothing (st : LyraState) (p : SearchParamsM)
    (lang : String) (tok : Tokenizer) (r : SearchRes)
    (hTok : tok p.term lang = [])
    (h : Lyra.search st p lang tok = .ok r) :
    r.count = 0 ∧ r.hits.filterMap (fun h => h.map Prod.fst) = [] := by
  cases hgi : Lyra.getIndices st p.props with
  | error e => simp [Lyra.search, hgi] at h
  | ok indices =>
    cases hgn : Lyra.getNonSearchableIndices p.whereClause st.schema "" with
    | error e => simp [Lyra.search, hgi, hgn] at h
    | ok bn =>
      obtain ⟨bIdx, nIdx⟩ := bn
      simp only [Lyra.search, hTok, hgi, hgn, List.foldl_nil, Except.ok.injEq] at h
      subst h
      exact ⟨rfl, by simp [filterMap_fst_replicate_none]⟩

theorem lyra_search_no_tokens_returns_nothing_witness :
    Lyra.search exStateTitle pEmpty "english" noTok = .ok rEmpty ∧
    (rEmpty.count = 0 ∧ rEmpty.hits.filterMap (fun h => h.map Prod.fst) = []) :=
  ⟨rfl, lyra_search_no_tokens_returns_nothing exStateTitle pEmpty "english" noTok rEmpty
    rfl rfl⟩

/-! ## Claim C5: hits bounded by limit, no duplicate ids -/

theorem foldl_pairs_addUnique_nodup (res : List (String × List String)) (acc : List String)
    (h : acc.Nodup) : (res.foldl (fun a p => p.2.foldl addUnique a) acc).Nodup := by
  induction res generalizing acc with
  | nil => exact h
  | cons p rest ih => exact ih _ (foldl_addUnique_nodup _ _ h)

theorem getDocumentIDsFromSearch_nodup (st : LyraState) (idxName term : String)
    (exact : Bool) (tol : Nat) :
    (Lyra.getDocumentIDsFromSearch st idxName term exact tol).Nodup := by
  unfold Lyra.getDocumentIDsFromSearch
  cases alistGet st.index idxName with
  | none => exact List.nodup_nil
  | some t => exact foldl_pairs_addUnique_nodup _ _ List.nodup_nil

theorem setIntersection_getD_nodup (l : List String) (b : Option (List String))
    (h : l.Nodup) : ((setIntersection (some l) b).getD []).Nodup := by
  cases b with
  | none => simpa [setIntersection] using h
  | some y => simpa [setIntersection] using h.filter _

theorem setSubtraction_nodup (a b : List String) (h : a.Nodup) :
    (setSubtraction a b).Nodup :=
  h.filter _

theorem not_mem_of_mem_setSubtraction (a b : List String) (x : String)
    (hx : x ∈ setSubtraction a b) : x ∉ b := by
  have := (List.mem_filter.mp hx).2
  simpa using this

theorem emitIds_inv (docs : List (String × JVal)) (limit offset : Nat) (ids : List String)
    (acc : SearchAcc) (hids : ids.Nodup) (hfresh : ∀ x ∈ ids, x ∉ acc.documentAdded)
    (hinv : accInv limit acc) : accInv limit (Lyra.emitIds docs limit offset ids acc) := by
  induction ids generalizing acc with
  | nil => exact hinv
  | cons id rest ih =>
    rw [Lyra.emitIds]
    split
    · exact ih { acc with j := acc.j + 1 } (hids.of_cons)
        (fun x hx => hfresh x (List.mem_cons_of_mem id hx)) hinv
    · split
      · exact hinv
      · rename_i hj hlim
        obtain ⟨hnd, hmem, hlen⟩ := hinv
        have hidfresh : id ∉ acc.documentAdded := hfresh id (List.mem_cons_self id rest)
        have hidres : id ∉ acc.results.map Prod.fst := fun hc => hidfresh (hmem id hc)
        apply ih
        · exact hids.of_cons
        · intro x hx
          simp only [List.mem_append, List.mem_singleton, not_or]
          refine ⟨fun hc => hfresh x (List.mem_cons_of_mem id hx) hc, ?_⟩
          intro hxe
          subst hxe
          exact (List.nodup_cons.mp hids).1 hx
        · refine ⟨?_, ?_, ?_⟩
          · rw [List.map_append]
            exact List.Nodup.append hnd (List.nodup_singleton _)
              (by intro a ha hb; simp at hb; subst hb; exact hidres ha)
          · intro a ha
            simp only [List.map_append, List.map_cons, List.map_nil, List.mem_append,
              List.mem_singleton] at ha
            rcases ha with ha | ha
            · exact List.mem_append_left _ (hmem a ha)
            · subst ha
              exact List.mem_append_right _ (List.mem_singleton_self _)
          · simp only [List.length_append, List.length_singleton]
            omega

theorem searchIndexLoop_inv (st : LyraState) (exact : Bool) (tol : Nat)
    (limit offset : Nat) (dFromWhere : Option (List String)) (token : String)
    (idxs : List String) (acc : SearchAcc) (hinv : accInv limit acc) :
    accInv limit (Lyra.searchIndexLoop st exact tol limit offset dFromWhere token idxs acc) := by
  induction idxs generalizing acc with
  | nil => exact hinv
  | cons idxName rest ih =>
    rw [Lyra.searchIndexLoop]
    split
    · exact ih acc hinv
    · split
      · exact ⟨hinv.1, hinv.2.1, hinv.2.2⟩
      · apply ih
        apply emitIds_inv
        · exact setSubtraction_nodup _ _ (setIntersection_getD_nodup _ _
            (getDocumentIDsFromSearch_nodup st idxName token exact tol))
        · exact fun x hx => not_mem_of_mem_setSubtraction _ _ x hx
        · exact ⟨hinv.1, hinv.2.1, hinv.2.2⟩

theorem searchTokenLoop_inv (st : LyraState) (exact : Bool) (tol : Nat)
    (limit offset : Nat) (dFromWhere : Option (List String)) (indices : List String)
    (tokens : List String) (acc : SearchAcc) (hinv : accInv limit acc) :
    accInv limit (tokens.foldl
      (fun a token => Lyra.searchIndexLoop st exact tol limit offset dFromWhere token indices a)
      acc) := by
  induction tokens generalizing acc with
  | nil => exact hinv
  | cons t rest ih =>
    exact ih _ (searchIndexLoop_inv st exact tol limit offset dFromWhere t indices acc hinv)

theorem filterMap_fst_hits (res : List (String × JVal)) (n : Nat) :
    ((res.map some ++ List.replicate n (none : Option (String × JVal))).filterMap
      (fun h => h.map Prod.fst)) = res.map Prod.fst := by
  rw [List.filterMap_append, filterMap_fst_replicate_none, List.append_nil]
  induction res with
  | nil => rfl
  | cons p rest ih => simp [ih]

/-- C5: for every engine state and search parameters, a search that
returns has at most `limit` hit entries (default 10; the hits array is
pre-allocated at exactly that length, the filled prefix never exceeds
it) and no document id appears twice among the filled entries (each
emitted id enters `documentAdded`, and candidate sets are subtracted
against it before emission). -/
theorem lyra_search_hits_bounded_and_nodup (st : LyraState) (p : SearchParamsM)
    (lang : String) (tok : Tokenizer) (r : SearchRes)
    (h : Lyra.search st p lang tok = .ok r) :
    r.hits.length ≤ p.limit.getD 10 ∧
      (r.hits.filterMap (fun h => h.map Prod.fst)).Nodup := by
  cases hgi : Lyra.getIndices st p.props with
  | error e => simp [Lyra.search, hgi] at h
  | ok indices =>
    cases hgn : Lyra.getNonSearchableIndices p.whereClause st.schema "" with
    | error e => simp [Lyra.search, hgi, hgn] at h
    | ok bn =>
      obtain ⟨bIdx, nIdx⟩ := bn
      simp only [Lyra.search, hgi, hgn, Except.ok.injEq] at h
      subst h
      have hinv := searchTokenLoop_inv st (p.exact.getD false) (p.tolerance.getD 0)
        (p.limit.getD 10) (p.offset.getD 0)
        (Lyra.getDocumentIDsFromWhere st bIdx nIdx) indices (tok p.term lang)
        { results := [], documentAdded := [], j := 0, totalResults := 0 }
        ⟨List.nodup_nil, by simp, by simp⟩
      obtain ⟨hnd, hmem, hlen⟩ := hinv
      constructor
      · simp only [List.length_append, List.length_map, List.length_replicate]
        omega
      · rw [filterMap_fst_hits]
        exact hnd

theorem lyra_search_hits_bounded_and_nodup_witness :
    Lyra.search exStateTB p5 "english" simpleTok = .ok r5 ∧
    (r5.hits.length ≤ p5.limit.getD 10 ∧
      (r5.hits.filterMap (fun h => h.map Prod.fst)).Nodup) :=
  ⟨rfl, lyra_search_hits_bounded_and_nodup exStateTB p5 "english" simpleTok r5 rfl⟩

/-! ## Claim C4: where-clause validation -/

theorem gNSIBool_error_iff (pv : JVal) (propName : String)
    (restRes : Except LyraError (List String × List String)) :
    (∃ e, Lyra.gNSIBool pv propName restRes = .error e) ↔
      (boolEntryViolation pv = true ∨ ∃ e, restRes = .error e) := by
  cases pv with
  | bool b =>
    cases restRes with
    | ok p => obtain ⟨bs, ns⟩ := p; simp [Lyra.gNSIBool, boolEntryViolation]
    | error e => simp [Lyra.gNSIBool, boolEntryViolation]
  | str s => simp [Lyra.gNSIBool, boolEntryViolation]
  | num n => simp [Lyra.gNSIBool, boolEntryViolation]
  | onil => simp [Lyra.gNSIBool, boolEntryViolation]
  | ocons a b c => simp [Lyra.gNSIBool, boolEntryViolation]

theorem gNSINumVal_error_iff (v : Option JVal) (k propName : String)
    (restRes : Except LyraError (List String × List String)) :
    (∃ e, Lyra.gNSINumVal v k propName restRes = .error e) ↔
      (numericValViolation v = true ∨ ∃ e, restRes = .error e) := by
  match v with
  | some (.num n) =>
    cases restRes with
    | ok p => obtain ⟨bs, ns⟩ := p; simp [Lyra.gNSINumVal, numericValViolation]
    | error e => simp [Lyra.gNSINumVal, numericValViolation]
  | some (.str s) => simp [Lyra.gNSINumVal, numericValViolation]
  | some (.bool b) => simp [Lyra.gNSINumVal, numericValViolation]
  | some .onil => simp [Lyra.gNSINumVal, numericValViolation]
  | some (.ocons a b c) => simp [Lyra.gNSINumVal, numericValViolation]
  | none => simp [Lyra.gNSINumVal, numericValViolation]

theorem gNSINumKey_error_iff (k? : Option String) (pv : JVal) (propName : String)
    (restRes : Except LyraError (List String × List String)) :
    (∃ e, Lyra.gNSINumKey k? pv propName restRes = .error e) ↔
      (numericKeyViolation k? pv = true ∨ ∃ e, restRes = .error e) := by
  cases k? with
  | none => simp [Lyra.gNSINumKey, numericKeyViolation]
  | some k =>
    by_cases hc : allowedNumericComparison.contains k = false
    · have hm : k ∉ allowedNumericComparison := by simpa using hc
      simp [Lyra.gNSINumKey, numericKeyViolation, hc, hm]
    · have hc' : allowedNumericComparison.contains k = true := by
        revert hc; cases allowedNumericComparison.contains k <;> simp
      have hm : k ∈ allowedNumericComparison := by simpa using hc'
      rw [Lyra.gNSINumKey, if_neg hc, gNSINumVal_error_iff]
      simp [numericKeyViolation, hc', hm]

theorem gNSINum_error_iff (pv : JVal) (propName : String)
    (restRes : Except LyraError (List String × List String)) :
    (∃ e, Lyra.gNSINum pv propName restRes = .error e) ↔
      (numericEntryViolation pv = true ∨ ∃ e, restRes = .error e) := by
  unfold Lyra.gNSINum numericEntryViolation
  by_cases hlen : 1 < pv.keysList.length
  · have hne : pv.keysList.length ≠ 1 := by omega
    simp [hlen, hne]
  · rw [if_neg hlen, gNSINumKey_error_iff]
    have heq : decide (pv.keysList.length ≠ 1) = numericKeyViolation pv.keysList.head? pv ∨
        decide (pv.keysList.length ≠ 1) = false := by
      cases hhd : pv.keysList.head? with
      | none =>
        have hnil : pv.keysList = [] := by
          cases hl : pv.keysList with
          | nil => rfl
          | cons a as => rw [hl] at hhd; simp at hhd
        left
        simp [hnil, numericKeyViolation]
      | some k =>
        right
        have : pv.keysList ≠ [] := by
          intro hnil; rw [hnil] at hhd; simp at hhd
        have := List.length_pos.mpr this
        have hl1 : pv.keysList.length = 1 := by omega
        simp [hl1]
    rcases heq with heq | heq
    · rw [heq]
      cases numericKeyViolation pv.keysList.head? pv <;> simp
    · rw [heq]
      simp

theorem gNSIFields_error_iff (w : JVal) : ∀ (schema : JVal) (pfx : String),
    (∃ e, Lyra.gNSIFields w schema pfx = .error e) ↔ whereViolation w schema = true := by
  induction w with
  | str s => intro schema pfx; simp [Lyra.gNSIFields, whereViolation]
  | num n => intro schema pfx; simp [Lyra.gNSIFields, whereViolation]
  | bool b => intro schema pfx; simp [Lyra.gNSIFields, whereViolation]
  | onil => intro schema pfx; simp [Lyra.gNSIFields, whereViolation]
  | ocons key pv rest ihpv ihrest =>
    intro schema pfx
    rw [Lyra.gNSIFields, whereViolation]
    cases hsk : schema.lookupKey key with
    | none =>
      simp only [hsk]
      simpa using ihrest schema pfx
    | some sv =>
      simp only [hsk]
      by_cases hb : sv = .str "boolean"
      · simp only [if_pos hb]
        rw [gNSIBool_error_iff pv (pfx ++ key) _, ihrest schema pfx]
        simp
      · simp only [if_neg hb]
        by_cases hn : sv = .str "number"
        · simp only [if_pos hn]
          rw [gNSINum_error_iff pv (pfx ++ key) _, ihrest schema pfx]
          simp
        · simp only [if_neg hn]
          by_cases ho : sv.typeofStr = "object"
          · simp only [if_pos ho]
            cases hv : Lyra.gNSIFields pv sv (pfx ++ key ++ ".") with
            | error e' =>
              simp only [hv]
              have hpv : whereViolation pv sv = true :=
                (ihpv sv (pfx ++ key ++ ".")).mp ⟨e', hv⟩
              simp [hpv]
            | ok p =>
              obtain ⟨b2, n2⟩ := p
              simp only [hv]
              have hpv : whereViolation pv sv = false := by
                cases hpveq : whereViolation pv sv with
                | false => rfl
                | true =>
                  obtain ⟨e, he⟩ := (ihpv sv (pfx ++ key ++ ".")).mpr hpveq
                  rw [hv] at he
                  simp at he
              cases hr : Lyra.gNSIFields rest schema pfx with
              | error e'' =>
                simp only [hr]
                have hrv : whereViolation rest schema = true :=
                  (ihrest schema pfx).mp ⟨e'', hr⟩
                simp [hpv, hrv]
              | ok q =>
                obtain ⟨b3, n3⟩ := q
                simp only [hr]
                have hrv : whereViolation rest schema = false := by
                  cases hreq : whereViolation rest schema with
                  | false => rfl
                  | true =>
                    obtain ⟨e, he⟩ := (ihrest schema pfx).mpr hreq
                    rw [hr] at he
                    simp at he
                simp [hpv, hrv]
          · simp only [if_neg ho]
            simpa using ihrest schema pfx

theorem gNSIBool_error_val (pv : JVal) (propName : String)
    (restRes : Except LyraError (List String × List String)) (e : LyraError)
    (h : Lyra.gNSIBool pv propName restRes = .error e) :
    (∃ s, e = .invalidQueryParams s) ∨ restRes = .error e := by
  cases pv with
  | bool b =>
    cases restRes with
    | ok p => obtain ⟨bs, ns⟩ := p; simp [Lyra.gNSIBool] at h
    | error e' =>
      right
      simp [Lyra.gNSIBool] at h
      rw [h]
  | str s => left; simp [Lyra.gNSIBool] at h; exact ⟨_, h.symm⟩
  | num n => left; simp [Lyra.gNSIBool] at h; exact ⟨_, h.symm⟩
  | onil => left; simp [Lyra.gNSIBool] at h; exact ⟨_, h.symm⟩
  | ocons a b c => left; simp [Lyra.gNSIBool] at h; exact ⟨_, h.symm⟩

theorem gNSINumVal_error_val (v : Option JVal) (k propName : String)
    (restRes : Except LyraError (List String × List String)) (e : LyraError)
    (h : Lyra.gNSINumVal v k propName restRes = .error e) :
    (∃ s, e = .invalidQueryParams s) ∨ restRes = .error e := by
  match v with
  | some (.num n) =>
    cases restRes with
    | ok p => obtain ⟨bs, ns⟩ := p; simp [Lyra.gNSINumVal] at h
    | error e' =>
      right
      simp [Lyra.gNSINumVal] at h
      rw [h]
  | some (.str s) => left; simp [Lyra.gNSINumVal] at h; exact ⟨_, h.symm⟩
  | some (.bool b) => left; simp [Lyra.gNSINumVal] at h; exact ⟨_, h.symm⟩
  | some .onil => left; simp [Lyra.gNSINumVal] at h; exact ⟨_, h.symm⟩
  | some (.ocons a b c) => left; simp [Lyra.gNSINumVal] at h; exact ⟨_, h.symm⟩
  | none => left; simp [Lyra.gNSINumVal] at h; exact ⟨_, h.symm⟩

theorem gNSINumKey_error_val (k? : Option String) (pv : JVal) (propName : String)
    (restRes : Except LyraError (List String × List String)) (e : LyraError)
    (h : Lyra.gNSINumKey k? pv propName restRes = .error e) :
    (∃ s, e = .invalidQueryParams s) ∨ restRes = .error e := by
  cases k? with
  | none => left; simp [Lyra.gNSINumKey] at h; exact ⟨_, h.symm⟩
  | some k =>
    rw [Lyra.gNSINumKey] at h
    by_cases hc : allowedNumericComparison.contains k = false
    · rw [if_pos hc] at h
      cases h
      exact Or.inl ⟨_, rfl⟩
    · rw [if_neg hc] at h
      exact gNSINumVal_error_val _ _ _ _ _ h

theorem gNSINum_error_val (pv : JVal) (propName : String)
    (restRes : Except LyraError (List String × List String)) (e : LyraError)
    (h : Lyra.gNSINum pv propName restRes = .error e) :
    (∃ s, e = .invalidQueryParams s) ∨ restRes = .error e := by
  rw [Lyra.gNSINum] at h
  by_cases hlen : 1 < pv.keysList.length
  · rw [if_pos hlen] at h
    cases h
    exact Or.inl ⟨_, rfl⟩
  · rw [if_neg hlen] at h
    exact gNSINumKey_error_val _ _ _ _ _ h

theorem gNSIFields_error_IQP (w : JVal) : ∀ (schema : JVal) (pfx : String) (e : LyraError),
    Lyra.gNSIFields w schema pfx = .error e → ∃ s, e = .invalidQueryParams s := by
  induction w with
  | str s => intro schema pfx e h; simp [Lyra.gNSIFields] at h
  | num n => intro schema pfx e h; simp [Lyra.gNSIFields] at h
  | bool b => intro schema pfx e h; simp [Lyra.gNSIFields] at h
  | onil => intro schema pfx e h; simp [Lyra.gNSIFields] at h
  | ocons key pv rest ihpv ihrest =>
    intro schema pfx e h
    rw [Lyra.gNSIFields] at h
    cases hsk : schema.lookupKey key with
    | none =>
      rw [hsk] at h
      exact ihrest schema pfx e h
    | some sv =>
      rw [hsk] at h
      simp only [] at h
      by_cases hb : sv = .str "boolean"
      · rw [if_pos hb] at h
        rcases gNSIBool_error_val _ _ _ _ h with hiqp | hrest
        · exact hiqp
        · exact ihrest schema pfx e hrest
      · rw [if_neg hb] at h
        by_cases hn : sv = .str "number"
        · rw [if_pos hn] at h
          rcases gNSINum_error_val _ _ _ _ h with hiqp | hrest
          · exact hiqp
          · exact ihrest schema pfx e hrest
        · rw [if_neg hn] at h
          by_cases ho : sv.typeofStr = "object"
          · rw [if_pos ho] at h
            cases hv : Lyra.gNSIFields pv sv (pfx ++ key ++ ".") with
            | error e' =>
              rw [hv] at h
              cases h
              exact ihpv sv (pfx ++ key ++ ".") e hv
            | ok p =>
              obtain ⟨b2, n2⟩ := p
              rw [hv] at h
              cases hr : Lyra.gNSIFields rest schema pfx with
              | error e'' =>
                rw [hr] at h
                cases h
                exact ihrest schema pfx e hr
              | ok q =>
                obtain ⟨b3, n3⟩ := q
                rw [hr] at h
                simp at h
          · rw [if_neg ho] at h
            exact ihrest schema pfx e h

/-- C4 (amended): `getNonSearchableIndices` — and hence `search`, which
calls it before the token loop — fails, always with
`InvalidQueryParams`, exactly when the `where` clause contains a
reachable violating entry: a boolean schema field given a non-boolean
value, or a numeric schema field given an object without exactly one
comparison key, with an operator outside the enumerated set, or with a
non-numeric comparison value.  A `where` entry naming a field that is
unknown or of text type is silently skipped, not rejected (the source's
if/else-if chain has no final else). -/
theorem lyra_where_validation_error_iff_violation (w : JVal) (schema : JVal) (pfx : String) :
    (∃ s, Lyra.getNonSearchableIndices (some w) schema pfx =
        .error (.invalidQueryParams s)) ↔ whereViolation w schema = true := by
  rw [show Lyra.getNonSearchableIndices (some w) schema pfx
      = Lyra.gNSIFields w schema pfx from rfl]
  constructor
  · rintro ⟨s, hs⟩
    exact (gNSIFields_error_iff w schema pfx).mp ⟨_, hs⟩
  · intro hviol
    obtain ⟨e, he⟩ := (gNSIFields_error_iff w schema pfx).mpr hviol
    obtain ⟨s, rfl⟩ := gNSIFields_error_IQP w schema pfx e he
    exact ⟨s, he⟩

/-- C4 counterexample: the claim requires `search` to fail with
`InvalidQueryParams` for every `where` clause referencing a field not
in the schema or of non-filterable type; but a `where` entry on a text
field (or on an unknown field) is silently ignored — validation
returns empty constraint lists and the search succeeds. -/
theorem lyra_where_on_text_field_not_rejected :
    Lyra.getNonSearchableIndices (some (.ocons "title" (.bool true) .onil))
        exSchemaTitle "" = .ok ([], []) ∧
    Lyra.search exStateTitle
        { term := "", props := .missing, limit := none, offset := none,
          exact := none, tolerance := none,
          whereClause := some (.ocons "title" (.bool true) .onil) }
        "english" noTok = .ok rEmpty ∧
    Lyra.getNonSearchableIndices (some (.ocons "unknownField" (.bool true) .onil))
        exSchemaTitle "" = .ok ([], []) :=
  ⟨rfl, rfl, rfl⟩

/-! ## Claim C7: index construction -/

theorem alistSet_fresh {α : Type} (l : List (String × α)) (k : String) (v : α)
    (h : k ∉ l.map Prod.fst) : alistSet l k v = l ++ [(k, v)] := by
  induction l with
  | nil => rfl
  | cons p rest ih =>
    obtain ⟨k0, v0⟩ := p
    simp only [List.map_cons, List.mem_cons, not_or] at h
    simp [alistSet, show ¬(k0 = k) from fun hh => h.1 hh.symm, ih h.2]

theorem except_bind_ok {ε α β : Type} (a : α) (f : α → Except ε β) :
    Except.bind (Except.ok a) f = f a := rfl

theorem map_fst_entries {α : Type} (ps : List String) (v0 : α) :
    (ps.map fun p => (p, v0)).map Prod.fst = ps := by
  simp [List.map_map]
  exact List.map_id ps

theorem buildIndex_go (schema : JVal) : ∀ (pfx : String) (st : LyraState),
    validSchemaB schema = true →
    (∀ p ∈ leafPaths "string" schema pfx, p ∉ st.index.map Prod.fst) →
    (leafPaths "string" schema pfx).Nodup →
    (∀ p ∈ leafPaths "number" schema pfx, p ∉ st.numericIndex.map Prod.fst) →
    (leafPaths "number" schema pfx).Nodup →
    (∀ p ∈ boolIdxKeys schema pfx, p ∉ st.booleanIndex.map Prod.fst) →
    (boolIdxKeys schema pfx).Nodup →
    Lyra.buildIndex schema pfx st = .ok
      { schema := st.schema, defaultLanguage := st.defaultLanguage, docs := st.docs,
        index := st.index ++ (leafPaths "string" schema pfx).map (fun p => (p, ([] : Trie))),
        numericIndex := st.numericIndex ++
          (leafPaths "number" schema pfx).map (fun p => (p, ([] : NumMap))),
        booleanIndex := st.booleanIndex ++
          (boolIdxKeys schema pfx).map (fun p => (p, ([] : List String))) } := by
  induction schema with
  | str s => intro pfx st hvalid _ _ _ _ _ _; simp [validSchemaB] at hvalid
  | num n => intro pfx st hvalid _ _ _ _ _ _; simp [validSchemaB] at hvalid
  | bool b => intro pfx st hvalid _ _ _ _ _ _; simp [validSchemaB] at hvalid
  | onil =>
    intro pfx st _ _ _ _ _ _ _
    simp [Lyra.buildIndex, leafPaths, boolIdxKeys]
  | ocons key v rest ihv ihrest =>
    intro pfx st hvalid hfS hndS hfN hndN hfB hndB
    have hvsplit : ((if v.typeofStr = "object" then validSchemaB v
        else if v = .str "string" then true
        else if v = .str "boolean" then true
        else if v = .str "number" then true
        else false) && validSchemaB rest) = true := hvalid
    rw [Bool.and_eq_true] at hvsplit
    obtain ⟨hv, hrest⟩ := hvsplit
    have hLPS : leafPaths "string" (.ocons key v rest) pfx =
        (if v.typeofStr = "object" then leafPaths "string" v (pfx ++ key ++ ".")
         else if v = .str "string" then [pfx ++ key] else []) ++
          leafPaths "string" rest pfx := rfl
    have hLPN : leafPaths "number" (.ocons key v rest) pfx =
        (if v.typeofStr = "object" then leafPaths "number" v (pfx ++ key ++ ".")
         else if v = .str "number" then [pfx ++ key] else []) ++
          leafPaths "number" rest pfx := rfl
    have hLPB : boolIdxKeys (.ocons key v rest) pfx =
        ((if v.typeofStr = "object" then leafPaths "boolean" v (pfx ++ key ++ ".")
          else if v = .str "boolean" then [pfx ++ key] else []).flatMap
            (fun p => [p ++ "_true", p ++ "_false"])) ++ boolIdxKeys rest pfx := by
      rw [boolIdxKeys,
        show leafPaths "boolean" (.ocons key v rest) pfx =
          (if v.typeofStr = "object" then leafPaths "boolean" v (pfx ++ key ++ ".")
           else if v = .str "boolean" then [pfx ++ key] else []) ++
            leafPaths "boolean" rest pfx from rfl,
        List.flatMap_append]
      rfl
    rw [hLPS] at hfS hndS
    rw [hLPN] at hfN hndN
    rw [hLPB] at hfB hndB
    rw [show Lyra.buildIndex (.ocons key v rest) pfx st =
        (if ("string" : String) ≠ "string" then .error (.invalidSchemaType "string")
         else if v.typeofStr = "object" then
           Except.bind (Lyra.buildIndex v (pfx ++ key ++ ".") st)
             (fun st1 => Lyra.buildIndex rest pfx st1)
         else if v = .str "string" then
           Lyra.buildIndex rest pfx { st with index := alistSet st.index (pfx ++ key) [] }
         else if v = .str "boolean" then
           Lyra.buildIndex rest pfx
             { st with booleanIndex := alistSet (alistSet st.booleanIndex (pfx ++ key ++ "_true") []) (pfx ++ key ++ "_false") [] }
         else if v = .str "number" then
           Lyra.buildIndex rest pfx
             { st with numericIndex := alistSet st.numericIndex (pfx ++ key) [] }
         else Lyra.buildIndex rest pfx st) from rfl,
      if_neg (show ¬(("string" : String) ≠ "string") by simp),
      hLPS, hLPN, hLPB]
    by_cases ho : v.typeofStr = "object"
    · simp only [if_pos ho] at hfS hndS hfN hndN hfB hndB hv ⊢
      obtain ⟨hndS1, hndS2, hdisjS⟩ := List.nodup_append.mp hndS
      obtain ⟨hndN1, hndN2, hdisjN⟩ := List.nodup_append.mp hndN
      obtain ⟨hndB1, hndB2, hdisjB⟩ := List.nodup_append.mp hndB
      rw [ihv (pfx ++ key ++ ".") st hv
        (fun p hp => hfS p (List.mem_append_left _ hp)) hndS1
        (fun p hp => hfN p (List.mem_append_left _ hp)) hndN1
        (fun p hp => hfB p (List.mem_append_left _ hp)) hndB1,
        except_bind_ok]
      rw [ihrest pfx _ hrest
        (fun p hp => by
          simp only [List.map_append, List.mem_append, map_fst_entries, not_or]
          exact ⟨hfS p (List.mem_append_right _ hp), fun hc => hdisjS hc hp⟩)
        hndS2
        (fun p hp => by
          simp only [List.map_append, List.mem_append, map_fst_entries, not_or]
          exact ⟨hfN p (List.mem_append_right _ hp), fun hc => hdisjN hc hp⟩)
        hndN2
        (fun p hp => by
          simp only [List.map_append, List.mem_append, map_fst_entries, not_or]
          exact ⟨hfB p (List.mem_append_right _ hp), fun hc => hdisjB hc hp⟩)
        hndB2]
      simp [List.map_append, List.append_assoc, boolIdxKeys]
    · simp only [if_neg ho] at hfS hndS hfN hndN hfB hndB hv ⊢
      by_cases hs : v = .str "string"
      · have hnN : ¬(v = .str "number") := by rw [hs]; simp
        have hnB : ¬(v = .str "boolean") := by rw [hs]; simp
        simp only [if_pos hs] at hfS hndS ⊢
        simp only [if_neg hnN] at hfN hndN ⊢
        simp only [if_neg hnB] at hfB hndB ⊢
        simp only [List.flatMap_nil, List.nil_append] at hfB hndB ⊢
        simp only [List.nil_append] at hfN hndN ⊢
        simp only [List.singleton_append] at hfS hndS ⊢
        have hfresh : (pfx ++ key) ∉ st.index.map Prod.fst :=
          hfS _ (List.mem_cons_self _ _)
        rw [alistSet_fresh _ _ _ hfresh]
        obtain ⟨hnotin, hndS2⟩ := List.nodup_cons.mp hndS
        rw [ihrest pfx { st with index := st.index ++ [(pfx ++ key, ([] : Trie))] } hrest
          (fun p hp => by
            simp only [List.map_append, List.mem_append, List.map_cons, List.map_nil,
              List.mem_singleton, not_or]
            exact ⟨hfS p (List.mem_cons_of_mem _ hp), fun hc => hnotin (hc ▸ hp)⟩)
          hndS2 hfN hndN hfB hndB]
        simp [List.append_assoc]
      · simp only [if_neg hs] at hfS hndS ⊢
        simp only [List.nil_append] at hfS hndS ⊢
        by_cases hb : v = .str "boolean"
        · have hnN : ¬(v = .str "number") := by rw [hb]; simp
          simp only [if_pos hb] at hfB hndB ⊢
          simp only [if_neg hnN] at hfN hndN ⊢
          simp only [List.nil_append] at hfN hndN ⊢
          simp only [show ([pfx ++ key] : List String).flatMap
              (fun p => [p ++ "_true", p ++ "_false"]) =
                [pfx ++ key ++ "_true", pfx ++ key ++ "_false"] from rfl] at hfB hndB ⊢
          have hft : (pfx ++ key ++ "_true") ∉ st.booleanIndex.map Prod.fst :=
            hfB _ (by simp)
          have hff : (pfx ++ key ++ "_false") ∉ st.booleanIndex.map Prod.fst :=
            hfB _ (by simp)
          have hndB0 : ((pfx ++ key ++ "_true") :: (pfx ++ key ++ "_false") ::
              boolIdxKeys rest pfx).Nodup := by simpa using hndB
          obtain ⟨hta, hndB1'⟩ := List.nodup_cons.mp hndB0
          obtain ⟨hfa, hndBrest⟩ := List.nodup_cons.mp hndB1'
          have hne : (pfx ++ key ++ "_false") ≠ (pfx ++ key ++ "_true") := by
            intro hc
            exact hta (by rw [← hc]; exact List.mem_cons_self _ _)
          rw [alistSet_fresh _ _ _ hft,
            alistSet_fresh _ _ _ (by
              simp only [List.map_append, List.mem_append, List.map_cons, List.map_nil,
                List.mem_singleton, not_or]
              exact ⟨hff, hne⟩)]
          have hfBrest : ∀ p ∈ boolIdxKeys rest pfx,
              p ∉ ((st.booleanIndex ++ [(pfx ++ key ++ "_true", ([] : List String))]) ++
                [(pfx ++ key ++ "_false", ([] : List String))]).map Prod.fst := by
            intro p hp
            simp only [List.map_append, List.mem_append, List.map_cons, List.map_nil,
              List.mem_singleton, not_or]
            refine ⟨⟨hfB p (by simp [hp]), ?_⟩, ?_⟩
            · intro hc
              subst hc
              exact hta (List.mem_cons_of_mem _ hp)
            · intro hc
              subst hc
              exact hfa hp
          rw [ihrest pfx
            { st with booleanIndex :=
                (st.booleanIndex ++ [(pfx ++ key ++ "_true", ([] : List String))]) ++
                  [(pfx ++ key ++ "_false", ([] : List String))] }
            hrest hfS hndS hfN hndN hfBrest hndBrest]
          simp [List.append_assoc]
        · simp only [if_neg hb] at hfB hndB ⊢
          simp only [List.flatMap_nil, List.nil_append] at hfB hndB ⊢
          by_cases hn : v = .str "number"
          · simp only [if_pos hn] at hfN hndN ⊢
            simp only [List.singleton_append] at hfN hndN ⊢
            have hfresh : (pfx ++ key) ∉ st.numericIndex.map Prod.fst :=
              hfN _ (List.mem_cons_self _ _)
            rw [alistSet_fresh _ _ _ hfresh]
            obtain ⟨hnotin, hndN2⟩ := List.nodup_cons.mp hndN
            rw [ihrest pfx
              { st with numericIndex := st.numericIndex ++ [(pfx ++ key, ([] : NumMap))] }
              hrest hfS hndS
              (fun p hp => by
                simp only [List.map_append, List.mem_append, List.map_cons, List.map_nil,
                  List.mem_singleton, not_or]
                exact ⟨hfN p (List.mem_cons_of_mem _ hp), fun hc => hnotin (hc ▸ hp)⟩)
              hndN2 hfB hndB]
            simp [List.append_assoc]
          · simp only [if_neg ho, if_neg hs, if_neg hb, if_neg hn] at hv
            exact absurd hv (by simp)

/-- C7 (amended): index construction never fails with
`InvalidSchemaType` — the source checks `typeof prop`, the key produced
by `Object.keys`, which is always a string, and silently skips leaves of
unknown type — and for every schema whose leaves are all among the
three known types and whose flat leaf paths (and derived boolean keys)
are pairwise distinct, it creates exactly one index per leaf at the
leaf's flat path: a trie per string leaf, a number map per number leaf,
and a `_true`/`_false` posting-set pair per boolean leaf. -/
theorem lyra_buildIndex_creates_index_per_leaf (schema : JVal) (lang : String)
    (hlang : SUPPORTED_LANGUAGES.contains lang = true)
    (hvalid : validSchemaB schema = true)
    (hndS : (leafPaths "string" schema "").Nodup)
    (hndN : (leafPaths "number" schema "").Nodup)
    (hndB : (boolIdxKeys schema "").Nodup) :
    Lyra.mk schema lang = .ok
      { schema := schema, defaultLanguage := lang, docs := [],
        index := (leafPaths "string" schema "").map (fun p => (p, ([] : Trie))),
        numericIndex := (leafPaths "number" schema "").map (fun p => (p, ([] : NumMap))),
        booleanIndex := (boolIdxKeys schema "").map (fun p => (p, ([] : List String))) } := by
  have hm : lang ∈ SUPPORTED_LANGUAGES := by simpa using hlang
  rw [Lyra.mk, if_neg (by simp [hm])]
  have := buildIndex_go schema ""
    { schema := schema, defaultLanguage := lang, docs := [],
      index := [], numericIndex := [], booleanIndex := [] }
    hvalid (by simp) hndS (by simp) hndN (by simp) hndB
  simpa using this

theorem lyra_buildIndex_creates_index_per_leaf_witness :
    (SUPPORTED_LANGUAGES.contains "english" = true ∧ validSchemaB c7Schema = true ∧
      leafPaths "string" c7Schema "" = ["title", "author.name"] ∧
      leafPaths "number" c7Schema "" = ["year"] ∧
      boolIdxKeys c7Schema "" = ["inStock_true", "inStock_false"]) ∧
    Lyra.mk c7Schema "english" = .ok
      { schema := c7Schema, defaultLanguage := "english", docs := [],
        index := (leafPaths "string" c7Schema "").map (fun p => (p, ([] : Trie))),
        numericIndex := (leafPaths "number" c7Schema "").map (fun p => (p, ([] : NumMap))),
        booleanIndex := (boolIdxKeys c7Schema "").map (fun p => (p, ([] : List String))) } :=
  ⟨⟨rfl, rfl, rfl, rfl, rfl⟩,
    lyra_buildIndex_creates_index_per_leaf c7Schema "english" rfl rfl
      (by decide) (by decide) (by decide)⟩

/-- C7 counterexample: the claim requires `InvalidSchemaType` when a
leaf value is not one of the three known leaf types; but construction
over `{x: "date"}` (a string that names no known type) and over
`{x: 42}` (a number in leaf position) succeeds silently, creating no
index at all. -/
theorem lyra_buildIndex_ignores_unknown_leaf_type :
    Lyra.mk (.ocons "x" (.str "date") .onil) "english" = .ok
      { schema := .ocons "x" (.str "date") .onil, defaultLanguage := "english",
        docs := [], index := [], numericIndex := [], booleanIndex := [] } ∧
    Lyra.mk (.ocons "x" (.num (.finite 42 0)) .onil) "english" = .ok
      { schema := .ocons "x" (.num (.finite 42 0)) .onil, defaultLanguage := "english",
        docs := [], index := [], numericIndex := [], booleanIndex := [] } :=
  ⟨rfl, rfl⟩

/-! ## Claim C3: numeric filter -/

theorem string_data_append (a b : String) : (a ++ b).data = a.data ++ b.data := rfl

theorem split_encoded (path op valstr : String) (hop : '.' ∉ op.data)
    (hval : '.' ∉ valstr.data) :
    splitOnChar '.' (path ++ "." ++ op ++ "." ++ valstr).data =
      splitOnChar '.' path.data ++ [op.data, valstr.data] := by
  have henc : (path ++ "." ++ op ++ "." ++ valstr).data =
      path.data ++ '.' :: (op.data ++ '.' :: valstr.data) := by
    simp [string_data_append]
  rw [henc, splitOnChar_append, splitOnChar_append,
    splitOnChar_of_not_mem _ _ hop, splitOnChar_of_not_mem _ _ hval]
  rfl

theorem mem_numFold (m : NumMap) (keys : List JSNum) (acc : List String) (id : String) :
    id ∈ keys.foldl (fun a k =>
        match numGet m k with
        | none => a
        | some ids => ids.foldl addUnique a) acc ↔
      id ∈ acc ∨ ∃ k ∈ keys, ∃ ids, numGet m k = some ids ∧ id ∈ ids := by
  induction keys generalizing acc with
  | nil => simp
  | cons k rest ih =>
    simp only [List.foldl_cons]
    cases hk : numGet m k with
    | none =>
      rw [ih]
      constructor
      · rintro (h | ⟨k', hk', ids, hids, hid⟩)
        · exact Or.inl h
        · exact Or.inr ⟨k', List.mem_cons_of_mem _ hk', ids, hids, hid⟩
      · rintro (h | ⟨k', hk', ids, hids, hid⟩)
        · exact Or.inl h
        · rcases List.mem_cons.mp hk' with rfl | hk'
          · rw [hk] at hids; cases hids
          · exact Or.inr ⟨k', hk', ids, hids, hid⟩
    | some ids0 =>
      rw [ih]
      simp only [mem_foldl_addUnique]
      constructor
      · rintro ((h | h) | ⟨k', hk', ids, hids, hid⟩)
        · exact Or.inl h
        · exact Or.inr ⟨k, List.mem_cons_self _ _, ids0, hk, h⟩
        · exact Or.inr ⟨k', List.mem_cons_of_mem _ hk', ids, hids, hid⟩
      · rintro (h | ⟨k', hk', ids, hids, hid⟩)
        · exact Or.inl (Or.inl h)
        · rcases List.mem_cons.mp hk' with rfl | hk'
          · rw [hk] at hids
            cases hids
            exact Or.inl (Or.inr hid)
          · exact Or.inr ⟨k', hk', ids, hids, hid⟩

theorem numGet_of_mem (m : NumMap) (p : JSNum × List String) (hp : p ∈ m)
    (hpw : m.Pairwise (fun a b => a.1.svz b.1 = false)) : numGet m p.1 = some p.2 := by
  induction m with
  | nil => cases hp
  | cons q rest ih =>
    rcases List.mem_cons.mp hp with rfl | hp'
    · simp [numGet, JSNum.svz_refl]
    · have hq := (List.pairwise_cons.mp hpw).1 p hp'
      rw [show numGet (q :: rest) p.1 =
          (if q.1.svz p.1 then some q.2 else numGet rest p.1) from rfl,
        if_neg (by simp [hq])]
      exact ih hp' (List.pairwise_cons.mp hpw).2

theorem gDIFW_numeric_single (st : LyraState) (path op valstr : String) (m : NumMap)
    (hop : '.' ∉ op.data) (hval : '.' ∉ valstr.data)
    (hm : alistGet st.numericIndex path = some m) :
    Lyra.getDocumentIDsFromWhere st [] [path ++ "." ++ op ++ "." ++ valstr] =
      some (((m.map Prod.fst).filter
          (Lyra.createPredicateForNumericComparison (some op) (jsNumberParse valstr))).foldl
        (fun a k =>
          match numGet m k with
          | none => a
          | some ids => ids.foldl addUnique a) []) := by
  have hsp := split_encoded path op valstr hop hval
  have h1 : splitOnChar '.' path.data ++ [op.data, valstr.data] =
      (splitOnChar '.' path.data ++ [op.data]) ++ [valstr.data] := by simp
  have hdrop1 : (splitOnChar '.' path.data ++ [op.data, valstr.data]).dropLast =
      splitOnChar '.' path.data ++ [op.data] := by
    rw [h1, List.dropLast_concat]
  have hdrop2 : (splitOnChar '.' path.data ++ [op.data]).dropLast =
      splitOnChar '.' path.data := by
    rw [List.dropLast_concat]
  have hkey : String.mk (List.intercalate ['.'] (splitOnChar '.' path.data)) = path := by
    rw [intercalate_splitOnChar]
  have hlast2 : (splitOnChar '.' path.data ++ [op.data]).getLast? = some op.data := by
    rw [List.getLast?_concat]
  have hlast1 : (splitOnChar '.' path.data ++ [op.data, valstr.data]).getLast? =
      some valstr.data := by
    rw [h1, List.getLast?_concat]
  have hopmk : String.mk op.data = op := rfl
  have hvmk : String.mk valstr.data = valstr := rfl
  simp only [Lyra.getDocumentIDsFromWhere, List.foldl_cons, List.foldl_nil, hsp, hdrop1,
    hdrop2, hkey, hlast2, hlast1, hopmk, hvmk, Option.map_some, Option.getD_some, hm,
    List.length_nil, List.length_cons, setIntersection]
  simp

theorem gNSI_single_numeric (f op : String) (n : JSNum)
    (hcont : allowedNumericComparison.contains op = true) :
    Lyra.getNonSearchableIndices (some (.ocons f (.ocons op (.num n) .onil) .onil))
      (.ocons f (.str "number") .onil) "" =
      .ok ([], [f ++ "." ++ op ++ "." ++ n.toJsStr]) := by
  have hmem : op ∈ allowedNumericComparison := by simpa using hcont
  show Lyra.gNSIFields _ _ _ = _
  simp [Lyra.gNSIFields, JVal.lookupKey, JVal.typeofStr, Lyra.gNSINum, JVal.keysList,
    Lyra.gNSINumKey, hcont, hmem, Lyra.gNSINumVal]

theorem dot_not_mem_toJsStr_int (v : ℤ) : '.' ∉ ((JSNum.finite v 0).toJsStr).data := by
  simp only [JSNum.toJsStr, jsBody_int]
  by_cases hv : v < 0
  · rw [if_pos hv]
    intro hc
    rcases List.mem_cons.mp hc with h | h
    · exact absurd h (by decide)
    · exact dot_not_mem_natDigits _ h
  · rw [if_neg hv]
    exact dot_not_mem_natDigits _

/-- C3 (amended): numeric filter soundness holds for integer target
values: for every operator in the enumerated set and every integer
target v, the `where` clause `{f: {op: v}}` on a numeric schema field f
is encoded as the dotted string `f.op.v`, and the filter set admits a
document id stored (exactly) under the finite numeric value x in the
field's number map if and only if `x op v` holds over ℚ.  (Non-integer
targets are excluded: their decimal spelling contains a dot, which the
re-parsing splits apart — see the counterexample.) -/
theorem lyra_numeric_filter_sound_for_integer_targets
    (st : LyraState) (f op : String) (v : ℤ) (xm : ℤ) (xe : ℕ) (id : String) (m : NumMap)
    (hop : op ∈ allowedNumericComparison)
    (hm : alistGet st.numericIndex f = some m)
    (hpw : m.Pairwise (fun a b => a.1.svz b.1 = false))
    (hstored : ∃ p ∈ m, p.1 = JSNum.finite xm xe ∧ id ∈ p.2)
    (honly : ∀ p ∈ m, id ∈ p.2 → p.1 = JSNum.finite xm xe) :
    Lyra.getNonSearchableIndices
        (some (.ocons f (.ocons op (.num (.finite v 0)) .onil) .onil))
        (.ocons f (.str "number") .onil) "" =
      .ok ([], [f ++ "." ++ op ++ "." ++ (JSNum.finite v 0).toJsStr]) ∧
    ∃ ids, Lyra.getDocumentIDsFromWhere st []
        [f ++ "." ++ op ++ "." ++ (JSNum.finite v 0).toJsStr] = some ids ∧
      (id ∈ ids ↔ specNumCmp op (ratD xm xe) (ratD v 0)) := by
  have hcont : allowedNumericComparison.contains op = true := by simpa using hop
  have hopcases : op = ">=" ∨ op = ">" ∨ op = "=" ∨ op = "<" ∨ op = "<=" := by
    simpa [allowedNumericComparison] using hop
  refine ⟨gNSI_single_numeric f op _ hcont, ?_⟩
  have hdotop : '.' ∉ op.data := by
    rcases hopcases with rfl | rfl | rfl | rfl | rfl <;> decide
  rw [gDIFW_numeric_single st f op _ m hdotop (dot_not_mem_toJsStr_int v) hm]
  refine ⟨_, rfl, ?_⟩
  rw [mem_numFold]
  simp only [List.not_mem_nil, false_or]
  have hparse : jsNumberParse ((JSNum.finite v 0).toJsStr) = .finite v 0 :=
    jsNumberParse_toJsStr_int v
  rw [hparse]
  have hpredx :
      (Lyra.createPredicateForNumericComparison (some op) (.finite v 0)
        (.finite xm xe) = true) ↔ specNumCmp op (ratD xm xe) (ratD v 0) := by
    rcases hopcases with rfl | rfl | rfl | rfl | rfl <;>
      simp [Lyra.createPredicateForNumericComparison, jsLt_finite, jsLe_finite,
        jsEqq_finite, specNumCmp]
  constructor
  · rintro ⟨k, hk, ids0, hng, hid⟩
    obtain ⟨hkmem, hkpred⟩ := List.mem_filter.mp hk
    obtain ⟨q, hq, hq1⟩ := List.mem_map.mp hkmem
    have hget := numGet_of_mem m q hq hpw
    rw [hq1] at hget
    rw [hget] at hng
    cases hng
    have hx := honly q hq hid
    rw [← hpredx, ← hx, hq1]
    exact hkpred
  · intro hspec
    obtain ⟨p, hpmem, hpx, hpid⟩ := hstored
    refine ⟨p.1, ?_, p.2, numGet_of_mem m p hpmem hpw, hpid⟩
    rw [List.mem_filter]
    refine ⟨List.mem_map.mpr ⟨p, hpmem, rfl⟩, ?_⟩
    rw [hpx]
    exact hpredx.mpr hspec

/-- C3 counterexample: the claim quantifies over every numeric target
"(integer or not)"; for the non-integer target 2019.5 it demands that
the document with year 2020 be admitted (2020 > 2019.5 — first
conjunct).  But the filter is serialized as the dotted string
`year.>.2019.5` and re-parsed by splitting on dots, so the code looks
up the numeric index `year.>` (which does not exist), the filter set
comes back empty, and the search returns nothing. -/
theorem lyra_numeric_filter_misses_nonintegral_target :
    JSNum.jsLt (.finite 20195 1) (.finite 2020 0) = true ∧
    Lyra.getNonSearchableIndices (some c3WhereBad) c3Schema "" =
      .ok ([], ["year.>.2019.5"]) ∧
    Lyra.getDocumentIDsFromWhere c3State [] ["year.>.2019.5"] = some [] ∧
    Lyra.search c3State c3ParamsBad "english" simpleTok =
      .ok { count := 0, hits := List.replicate 10 none } :=
  ⟨by decide, rfl, rfl, rfl⟩

theorem lyra_numeric_filter_sound_for_integer_targets_witness :
    ((">" ∈ allowedNumericComparison) ∧
      alistGet c3State.numericIndex "year" = some [(JSNum.finite 2020 0, ["A"])] ∧
      ([(JSNum.finite 2020 0, ["A"])] : NumMap).Pairwise
        (fun a b => a.1.svz b.1 = false) ∧
      (∃ p ∈ ([(JSNum.finite 2020 0, ["A"])] : NumMap),
        p.1 = JSNum.finite 2020 0 ∧ "A" ∈ p.2)) ∧
    (Lyra.getNonSearchableIndices
        (some (.ocons "year" (.ocons ">" (.num (.finite 2019 0)) .onil) .onil))
        (.ocons "year" (.str "number") .onil) "" =
      .ok ([], ["year" ++ "." ++ ">" ++ "." ++ (JSNum.finite 2019 0).toJsStr]) ∧
    ∃ ids, Lyra.getDocumentIDsFromWhere c3State []
        ["year" ++ "." ++ ">" ++ "." ++ (JSNum.finite 2019 0).toJsStr] = some ids ∧
      ("A" ∈ ids ↔ specNumCmp ">" (ratD 2020 0) (ratD 2019 0))) :=
  ⟨⟨by decide, rfl, by decide, by decide⟩,
    lyra_numeric_filter_sound_for_integer_targets c3State "year" ">" 2019 2020 0 "A"
      [(JSNum.finite 2020 0, ["A"])] (by decide) rfl (by decide) (by decide) (by decide)⟩
